import Mathlib

/-!
Verification development for the voice employment-verification backend
(`main.py`, `voice_agent_prototype.py`).

Strings are modelled as `List Char` (`Str`).  The model restricts itself to
the ASCII fragment of Python's text predicates (`str.lower`, `str.isdigit`,
`str.isalpha`, `str.strip`, `\d`): on ASCII inputs the definitions below agree
with Python exactly, and all string literals occurring in the source are ASCII.

Python floats appear in the source only as the constants `0.7` (name
validation) and `0.4` (fuzzy-match cutoff) and as `difflib` similarity ratios
`2*M/T` compared against them.  All these comparisons are modelled exactly
over the integers by cross-multiplication; for the magnitudes reachable here
(ratios with denominators far below 2^50) the double-precision comparisons in
CPython agree with the exact rational comparisons, so the model is faithful.
-/

abbrev Str := List Char

def str (s : String) : Str := s.data

/-- ASCII whitespace, the characters `str.strip()` removes for ASCII input. -/
def pyIsSpace (c : Char) : Bool :=
  c = ' ' || c = '\t' || c = '\n' || c = '\r' || c = '\x0b' || c = '\x0c'

/-- Python `str.strip()` (ASCII fragment). -/
def pyStrip (s : Str) : Str :=
  ((s.dropWhile pyIsSpace).reverse.dropWhile pyIsSpace).reverse

/-- Python `str.lower()` (ASCII fragment). -/
def pyLower (s : Str) : Str := s.map Char.toLower

/-- `needle` begins `hay`? (helper for Python substring containment). -/
def beginsB : Str → Str → Bool
  | [], _ => true
  | _ :: _, [] => false
  | a :: as, b :: bs => a = b && beginsB as bs

/-- Python `needle in hay` substring containment. -/
def containsSub (hay needle : Str) : Bool :=
  beginsB needle hay ||
    match hay with
    | [] => false
    | _ :: t => containsSub t needle

/-- Python `str.split()` with no argument: split on whitespace runs,
discarding empty pieces. -/
def pySplitWs (s : Str) : List Str :=
  (s.splitOnP pyIsSpace).filter (· ≠ [])

/-- Python `str.isdigit()` restricted to ASCII: nonempty and all `0`-`9`. -/
def pyIsDigitStr (s : Str) : Bool := !s.isEmpty && s.all Char.isDigit

/-- `int(...)` on a string of ASCII decimal digits. -/
def parseNat (s : Str) : Nat :=
  s.foldl (fun acc c => 10 * acc + (c.toNat - 48)) 0

/-- Lexicographic (code-point) comparison, Python `<` on strings. -/
def strLtB : Str → Str → Bool
  | [], [] => false
  | [], _ :: _ => true
  | _ :: _, [] => false
  | a :: as, b :: bs => a < b || (a = b && strLtB as bs)

/-- Decimal rendering of a natural number (fuel-structured so the kernel can
evaluate it; the fuel `n + 1` always suffices). -/
def natToStrAux : Nat → Nat → Str
  | 0, _ => []
  | fuel + 1, n =>
    if n < 10 then [Char.ofNat (48 + n)]
    else natToStrAux fuel (n / 10) ++ [Char.ofNat (48 + n % 10)]

/-- Python `str(n)` / f-string interpolation of a natural number. -/
def natToStr (n : Nat) : Str := natToStrAux (n + 1) n

/-- Decimal rendering of an integer. -/
def intToStr (i : Int) : Str :=
  if i < 0 then '-' :: natToStr i.natAbs else natToStr i.toNat

/-- The maximal runs of ASCII digits in a string, in order:
`re.findall(r'\d+', s)`.  `acc` is the run currently being read, reversed. -/
def digitRunsAux : Str → Option Str → List Str
  | [], none => []
  | [], some run => [run.reverse]
  | c :: rest, none =>
    if c.isDigit then digitRunsAux rest (some [c]) else digitRunsAux rest none
  | c :: rest, some run =>
    if c.isDigit then digitRunsAux rest (some (c :: run))
    else run.reverse :: digitRunsAux rest none

def digitRuns (s : Str) : List Str := digitRunsAux s none

/-- The shared `meta_phrases` list of the four validators. -/
def metaPhrases : List Str :=
  [str "list of company", str "list of", str "show me", str "what are",
   str "give me", str "i want", str "can you"]

/-- `any(phrase in s for phrase in meta_phrases)` where `s` is already
lower-cased by the caller. -/
def hasMetaPhrase (s : Str) : Bool :=
  metaPhrases.any (fun p => containsSub s p)

/-- `validate_name` from `main.py`: returns `(is_valid, error_message)`. -/
def validate_name (name0 : Str) : Bool × Str :=
  let name := pyStrip name0
  if hasMetaPhrase (pyLower name) then
    (false, str "I need your actual name, not a request. Could you please provide your full first and last name?")
  else if name.length < 2 then
    (false, str "That seems too short. Could you provide your full first and last name?")
  else if (pySplitWs name).length < 2 then
    (false, str "I need both your first and last name. Could you provide your full name?")
  else if (name.countP (fun c => c.isAlpha || pyIsSpace c)) * 10 < name.length * 7 then
    -- source: `sum(c.isalpha() or c.isspace() for c in name) < len(name) * 0.7`
    (false, str "That doesn't look like a valid name. Could you spell your full name for me?")
  else
    (true, [])

/-- `validate_years_of_experience` from `main.py`: returns
`(is_valid, error_message, parsed_value)`. -/
def validate_years_of_experience (experience0 : Str) : Bool × Str × Int :=
  let experience := pyLower (pyStrip experience0)
  if hasMetaPhrase experience then
    (false, str "I need to know your years of experience. How many years have you been working professionally? Please give me a number.", -1)
  else
    match digitRuns experience with
    | [] =>
      (false, str "I need the number of years. For example, 5 years or 10 years. How many years would that be?", -1)
    | n :: _ =>
      let years : Int := (parseNat n : Nat)
      if years < 0 then
        (false, str "Years of experience cannot be negative. How many years of experience do you have?", -1)
      else if years > 50 then
        (false, str "Just to confirm, you said " ++ intToStr years ++
          str " years of experience — is that correct?", years)
      else
        (true, [], years)

/-! ## Date-of-birth validation

`validate_date_of_birth` searches the input with the two patterns
`(\d{1,2}) sep (\d{1,2}) sep (\d{4})` and `(\d{4}) sep (\d{1,2}) sep (\d{1,2})`
where `sep` is the character class holding `/` and `-`
(`re.search`: leftmost match, greedy groups with backtracking), then joins the
three captured digit groups with `/` and feeds them to `datetime.strptime`
with the formats `%d/%m/%Y`, `%m/%d/%Y`, `%Y/%m/%d` in order.

`strptime` requires the whole string to match; since the joined string is
`g1/g2/g3` with digit-only groups, a format matches exactly when each group
lies in the exact language of its directive: `%d` = 1-2 digits with value
1..31, `%m` = 1-2 digits with value 1..12, `%Y` = exactly 4 digits; the
`datetime` constructor then validates the calendar date (year ≥ 1, day within
the month, Gregorian leap rule). -/

def isSep (c : Char) : Bool := c = '/' || c = '-'

/-- Exactly `n` leading ASCII digits; returns the digits and the rest. -/
def takeDigitsExactly (n : Nat) (cs : Str) : Option (Str × Str) :=
  let ds := cs.take n
  if ds.length = n && ds.all Char.isDigit then some (ds, cs.drop n) else none

/-- Try `(\d{l1}) sep (\d{l2}) sep (\d{l3})` anchored at the head of `cs`. -/
def matchTriple (l1 l2 l3 : Nat) (cs : Str) : Option (Str × Str × Str) := do
  let (g1, r1) ← takeDigitsExactly l1 cs
  match r1 with
  | s1 :: r2 =>
    if isSep s1 then do
      let (g2, r3) ← takeDigitsExactly l2 r2
      match r3 with
      | s2 :: r4 =>
        if isSep s2 then do
          let (g3, _) ← takeDigitsExactly l3 r4
          pure (g1, g2, g3)
        else none
      | [] => none
    else none
  | [] => none

/-- Pattern 1 at one position, in the regex engine's backtracking order:
both `\d{1,2}` groups greedy (2 digits tried before 1). -/
def matchPat1Here (cs : Str) : Option (Str × Str × Str) :=
  (matchTriple 2 2 4 cs).orElse fun _ =>
  (matchTriple 2 1 4 cs).orElse fun _ =>
  (matchTriple 1 2 4 cs).orElse fun _ =>
  matchTriple 1 1 4 cs

/-- Pattern 2 at one position (`\d{4}` first). -/
def matchPat2Here (cs : Str) : Option (Str × Str × Str) :=
  (matchTriple 4 2 2 cs).orElse fun _ =>
  (matchTriple 4 2 1 cs).orElse fun _ =>
  (matchTriple 4 1 2 cs).orElse fun _ =>
  matchTriple 4 1 1 cs

/-- `re.search`: scan positions left to right. -/
def searchAt (mh : Str → Option (Str × Str × Str)) : Str → Option (Str × Str × Str)
  | [] => mh []
  | c :: rest =>
    match mh (c :: rest) with
    | some g => some g
    | none => searchAt mh rest

/-- Exact language of strptime's `%d`: 1-2 digits, value 1..31. -/
def dayDirOk (s : Str) : Bool :=
  (s.length = 1 || s.length = 2) && 1 ≤ parseNat s && parseNat s ≤ 31

/-- Exact language of strptime's `%m`: 1-2 digits, value 1..12. -/
def monthDirOk (s : Str) : Bool :=
  (s.length = 1 || s.length = 2) && 1 ≤ parseNat s && parseNat s ≤ 12

/-- Exact language of strptime's `%Y`: exactly 4 digits. -/
def yearDirOk (s : Str) : Bool := s.length = 4

def isLeapYear (y : Nat) : Bool := y % 4 = 0 && (y % 100 ≠ 0 || y % 400 = 0)

def daysInMonth (y m : Nat) : Nat :=
  if m = 2 then (if isLeapYear y then 29 else 28)
  else if m = 4 || m = 6 || m = 9 || m = 11 then 30
  else 31

structure PyDate where
  year : Nat
  month : Nat
  day : Nat
deriving DecidableEq, Repr

/-- The `datetime` constructor's validation (`MINYEAR = 1`). -/
def validCalendarDate (y m d : Nat) : Bool :=
  1 ≤ y && 1 ≤ m && m ≤ 12 && 1 ≤ d && d ≤ daysInMonth y m

def tryFormatDMY (p : Str × Str × Str) : Option PyDate :=
  if dayDirOk p.1 && monthDirOk p.2.1 && yearDirOk p.2.2 &&
      validCalendarDate (parseNat p.2.2) (parseNat p.2.1) (parseNat p.1) then
    some ⟨parseNat p.2.2, parseNat p.2.1, parseNat p.1⟩
  else none

def tryFormatMDY (p : Str × Str × Str) : Option PyDate :=
  if monthDirOk p.1 && dayDirOk p.2.1 && yearDirOk p.2.2 &&
      validCalendarDate (parseNat p.2.2) (parseNat p.1) (parseNat p.2.1) then
    some ⟨parseNat p.2.2, parseNat p.1, parseNat p.2.1⟩
  else none

def tryFormatYMD (p : Str × Str × Str) : Option PyDate :=
  if yearDirOk p.1 && monthDirOk p.2.1 && dayDirOk p.2.2 &&
      validCalendarDate (parseNat p.1) (parseNat p.2.1) (parseNat p.2.2) then
    some ⟨parseNat p.1, parseNat p.2.1, parseNat p.2.2⟩
  else none

/-- The inner `for date_format in [...]` loop: first parsing format wins. -/
def parseDateParts (p : Str × Str × Str) : Option PyDate :=
  (tryFormatDMY p).orElse fun _ => (tryFormatMDY p).orElse fun _ => tryFormatYMD p

/-- The `for pattern in date_formats` loop of `validate_date_of_birth`:
pattern 1's match is tried against the three formats; if none parses (or
there is no match), pattern 2's match is tried. -/
def dobParse (dob : Str) : Option PyDate :=
  match (searchAt matchPat1Here dob).bind parseDateParts with
  | some d => some d
  | none => (searchAt matchPat2Here dob).bind parseDateParts

/-- The current date, `datetime.now()` in the source. -/
structure Today where
  year : Nat
  month : Nat
  day : Nat
deriving DecidableEq, Repr

/-- `today.year - date_obj.year - ((today.month, today.day) < (date_obj.month, date_obj.day))`. -/
def computeAge (today : Today) (d : PyDate) : Int :=
  (today.year : Int) - (d.year : Int) -
    (if today.month < d.month || (today.month = d.month && today.day < d.day)
     then 1 else 0)

/-- `validate_date_of_birth` from `main.py`: returns `(is_valid, error_message)`. -/
def validate_date_of_birth (today : Today) (dob0 : Str) : Bool × Str :=
  let dob := pyStrip dob0
  if hasMetaPhrase (pyLower dob) then
    (false, str "I need your date of birth, not a request. Could you provide your birth date? For example, March 15th, 1990.")
  else
    match dobParse dob with
    | none =>
      (false, str "I need the complete date. Could you give me the month, day, and year? For example, March 15th, 1990.")
    | some d =>
      let age := computeAge today d
      if age < 18 then
        (false, str "You must be at least 18 years old. Could you verify your date of birth?")
      else if age > 80 then
        (false, str "Just to confirm, that would make you " ++ intToStr age ++
          str " years old. Is that correct?")
      else
        (true, [])

/-- `validate_email` from `main.py` (regex
`^[a-zA-Z0-9._%+-]+@[a-zA-Z0-9.-]+\.[a-zA-Z]{2,}$`): returns
`(is_valid, error_message)`.  `re.match` with a final `$` matches the whole
string, optionally ignoring one trailing newline. -/
def localChar (c : Char) : Bool :=
  c.isAlpha || c.isDigit || c = '.' || c = '_' || c = '%' || c = '+' || c = '-'

def domainChar (c : Char) : Bool := c.isAlpha || c.isDigit || c = '.' || c = '-'

/-- Full match of `[a-zA-Z0-9.-]+\.[a-zA-Z]{2,}` : some split at a dot whose
suffix is all-alphabetic of length ≥ 2 (equivalently, the last dot works). -/
def domainAndTld : Str → Bool
  | [] => false
  | c :: rest =>
    (domainChar c &&
      match rest with
      | [] => false
      | r :: rs =>
        (r = '.' && rs.length ≥ 2 && rs.all Char.isAlpha) || domainAndTld (r :: rs))

def emailShape (cs : Str) : Bool :=
  match cs.splitOn '@' with
  | [local_, rest] =>
    !local_.isEmpty && local_.all localChar && domainAndTld rest
  | _ => false

def validate_email (email0 : Str) : Bool × Str :=
  let email := pyLower (pyStrip email0)
  if hasMetaPhrase email then
    (false, str "I need your email address, not a request. Could you provide your email?")
  else if !(emailShape email || (email.getLast? = some '\n' && emailShape (email.dropLast))) then
    (false, str "That doesn't look like a valid email address. Could you provide your email in the format: name@company.com?")
  else
    (true, [])

/-! ## `difflib` similarity (the fuzzy company matcher)

`suggest_company_matches` is `difflib.get_close_matches(user_input,
company_list, n=5, cutoff=0.4)`.  `SequenceMatcher` is modelled exactly (no
junk: `isjunk is None` and the `autojunk` popularity heuristic only fires for
second sequences longer than 199 characters, far beyond any company name).
`ratio()` is `2*M/T` where `M` is the total size of the matching blocks and
`T` the sum of the lengths; it is represented as the exact pair `(2*M, T)`
and compared by cross-multiplication (`T = 0` means both sequences are empty,
where `ratio()` is defined to be `1.0`). -/

/-- `b2j`: the (increasing) list of positions of `c` in `b`. -/
def b2j (b : Str) (c : Char) : List Nat :=
  (List.range b.length).filter (fun j => b.getD j ' ' = c)

structure FLMBest where
  besti : Nat
  bestj : Nat
  bestsize : Nat
deriving DecidableEq, Repr

/-- The inner `for j in b2j.get(a[i], [])` loop of `find_longest_match`:
`old` is the previous row's `j2len`, `nw` the row being built. -/
def flmInner (old : Nat → Nat) (i : Nat) :
    List Nat → (Nat → Nat) → FLMBest → ((Nat → Nat) × FLMBest)
  | [], nw, best => (nw, best)
  | j :: js, nw, best =>
    let k := (if j = 0 then 0 else old (j - 1)) + 1
    let nw' := fun x => if x = j then k else nw x
    let best' := if best.bestsize < k then ⟨i + 1 - k, j + 1 - k, k⟩ else best
    flmInner old i js nw' best'

/-- The outer `for i in range(alo, ahi)` loop of `find_longest_match`. -/
def flmOuter (a b : Str) (blo bhi : Nat) :
    List Nat → (Nat → Nat) → FLMBest → FLMBest
  | [], _, best => best
  | i :: is', j2len, best =>
    let js := (b2j b (a.getD i ' ')).filter (fun j => blo ≤ j && j < bhi)
    let (nw, best') := flmInner j2len i js (fun _ => 0) best
    flmOuter a b blo bhi is' nw best'

/-- `SequenceMatcher.find_longest_match(alo, ahi, blo, bhi)` (no junk, so the
post-loop junk extensions are no-ops). -/
def findLongestMatch (a b : Str) (alo ahi blo bhi : Nat) : FLMBest :=
  flmOuter a b blo bhi (List.range' alo (ahi - alo)) (fun _ => 0) ⟨alo, blo, 0⟩

/-- Total size `M` of `get_matching_blocks` over the range, computed with
explicit fuel; each recursion level strictly shrinks the range, so fuel
`(ahi - alo) + (bhi - blo) + 1` always suffices. -/
def matchTotal (a b : Str) : Nat → Nat → Nat → Nat → Nat → Nat
  | 0, _, _, _, _ => 0
  | fuel + 1, alo, ahi, blo, bhi =>
    let m := findLongestMatch a b alo ahi blo bhi
    if m.bestsize = 0 then 0
    else
      matchTotal a b fuel alo m.besti blo m.bestj + m.bestsize +
        matchTotal a b fuel (m.besti + m.bestsize) ahi (m.bestj + m.bestsize) bhi

/-- `SequenceMatcher(None, a, b).ratio()` as the exact pair `(2*M, T)`. -/
def ratioPair (a b : Str) : Nat × Nat :=
  (2 * matchTotal a b (a.length + b.length + 1) 0 a.length 0 b.length,
   a.length + b.length)

/-- numerator/denominator view of a ratio pair (`T = 0` reads as `1.0`). -/
def rnum (p : Nat × Nat) : Nat := if p.2 = 0 then 1 else p.1
def rden (p : Nat × Nat) : Nat := if p.2 = 0 then 1 else p.2

/-- `ratio ≥ cutoff` with `cutoff = cn/cd`. -/
def ratioGeCut (cn cd : Nat) (p : Nat × Nat) : Bool :=
  cn * rden p ≤ rnum p * cd

/-- Python tuple order `(score1, x1) ≥ (score2, x2)` used by
`heapq.nlargest` / `sorted(..., reverse=True)`. -/
def scoredGe (p q : (Nat × Nat) × Str) : Bool :=
  rnum q.1 * rden p.1 < rnum p.1 * rden q.1 ||
    (rnum q.1 * rden p.1 = rnum p.1 * rden q.1 &&
      (strLtB q.2 p.2 || q.2 = p.2))

/-- Stable insertion placing `x` after every element `y` with `le y x`. -/
def sInsert (le : α → α → Bool) (x : α) : List α → List α
  | [] => [x]
  | y :: ys => if le y x then y :: sInsert le x ys else x :: y :: ys

/-- Stable sort: elements are inserted left to right, so elements comparing
equal keep their original order, as Python's `sorted` guarantees. -/
def stableSortBy (le : α → α → Bool) (l : List α) : List α :=
  l.foldl (fun acc x => sInsert le x acc) []

/-- `difflib.get_close_matches(word, possibilities, n, cutoff = cn/cd)`.
The `real_quick_ratio`/`quick_ratio` tests are upper bounds of `ratio` and
filter nothing beyond `ratio() >= cutoff`. -/
def getCloseMatches (word : Str) (possibilities : List Str) (n cn cd : Nat) :
    List Str :=
  let result := possibilities.filterMap (fun x =>
    let r := ratioPair x word
    if ratioGeCut cn cd r then some (r, x) else none)
  ((stableSortBy scoredGe result).take n).map (·.2)

/-- `suggest_company_matches` from `main.py` (identical in
`voice_agent_prototype.py`), with the company directory explicit. -/
def suggest_company_matches (company_list : List Str) (user_input : Str) :
    List Str :=
  getCloseMatches user_input company_list 5 2 5

/-! ## Session data model and the `/api/chat` state machine

The session dictionary of `main.py` is modelled as a structure; `user_data`
keys that may be absent are `Option`s (reading an absent key raises `KeyError`
in Python, which the step function models by returning no reply while keeping
the mutations already performed — the endpoint mutates the stored session in
place, so partial mutations survive an exception).

External collaborators are parameters: the fallback responder
(`chat_response`, backed by Azure OpenAI) is a function
`fb : List Message → Option Str` that returns `none` when the upstream call
raises; the speech synthesizer (`text_to_speech`, gTTS) is the flag `ttsOk`;
transcript persistence (`save_session_transcript`) is recorded as the Boolean
`savedTranscript` of the turn outcome. -/

inductive SessionState
  | GREETING | COLLECTING_EXPERIENCE | COLLECTING_DOB | COLLECTING_EMAIL
  | VERIFYING_EMPLOYMENT | ASKING_COMPANY | SELECTING_COMPANY
  | CONFIRMING_UNKNOWN_COMPANY | COMPLETED
deriving DecidableEq, Repr

open SessionState

structure Message where
  role : Str
  content : Str
deriving DecidableEq, Repr

structure UserData where
  name : Option Str := none
  first_name : Option Str := none
  years_of_experience : Option Int := none
  date_of_birth : Option Str := none
  email : Option Str := none
  /-- `users.get(email)`: the outer `Option` is key presence, the inner the
  looked-up record (its `company_name`), which may itself be `None`. -/
  employment_record : Option (Option Str) := none
  company_name : Option Str := none
  company_matches : Option (List Str) := none
  pending_company_name : Option Str := none
deriving DecidableEq, Repr

structure RetryCounts where
  name : Nat := 0
  experience : Nat := 0
  dob : Nat := 0
  email : Nat := 0
deriving DecidableEq, Repr

structure Session where
  conversation_history : List Message
  state : SessionState
  user_data : UserData
  verified : Bool
  retry_counts : RetryCounts
deriving DecidableEq, Repr

/-- `users.get(email)` over the records store loaded from `static/user.json`,
with the store explicit as an association list `email ↦ company_name`
(records in the store are nonempty dicts, so found records are truthy). -/
def get_employment (users : List (Str × Str)) (email : Str) : Option Str :=
  (users.find? (fun p => p.1 = email)).map (·.2)

def joinStr (sep : Str) : List Str → Str
  | [] => []
  | [x] => x
  | x :: y :: xs => x ++ sep ++ joinStr sep (y :: xs)

/-- `", ".join([f"{i+1}: {m}" for i, m in enumerate(l)])`. -/
def numberedList (l : List Str) : Str :=
  joinStr (str ", ") (l.enum.map (fun p => natToStr (p.1 + 1) ++ str ": " ++ p.2))

/-- Result of one state-machine branch: the session as mutated so far and
`some (response_text, suggestions)`, or `none` if the branch raised
(fallback-responder failure or `KeyError` on a missing `user_data` key). -/
abbrev StepResult := Session × Option (Str × Option (List Str))

def greetingStep (fb : List Message → Option Str) (s : Session) (input : Str) :
    StepResult :=
  let v := validate_name input
  if v.1 then
    let first_name := (pySplitWs input).headD []  -- `user_input.split()[0]`; nonempty here since a valid name has ≥ 2 words
    ({s with
        user_data := {s.user_data with name := some input, first_name := some first_name},
        state := COLLECTING_EXPERIENCE,
        retry_counts := {s.retry_counts with name := 0}},
     some (str "Nice to meet you, " ++ first_name ++
       str "! How many years of experience do you have?", none))
  else
    let s' := {s with retry_counts := {s.retry_counts with name := s.retry_counts.name + 1}}
    if s'.retry_counts.name ≥ 3 then
      match fb s'.conversation_history with
      | some t => (s', some (t, none))
      | none => (s', none)
    else (s', some (v.2, none))

def experienceStep (fb : List Message → Option Str) (s : Session) (input : Str) :
    StepResult :=
  let v := validate_years_of_experience input
  if v.1 then
    ({s with
        user_data := {s.user_data with years_of_experience := some v.2.2},
        state := COLLECTING_DOB,
        retry_counts := {s.retry_counts with experience := 0}},
     some (str "Great! What is your date of birth? Please say it in a format like day, month, year.", none))
  else
    let s' := {s with retry_counts := {s.retry_counts with experience := s.retry_counts.experience + 1}}
    if s'.retry_counts.experience ≥ 3 then
      match fb s'.conversation_history with
      | some t => (s', some (t, none))
      | none => (s', none)
    else (s', some (v.2.1, none))

def dobStep (fb : List Message → Option Str) (today : Today) (s : Session)
    (input : Str) : StepResult :=
  let v := validate_date_of_birth today input
  if v.1 then
    let s1 := {s with user_data := {s.user_data with date_of_birth := some input}}
    match s1.user_data.first_name with
    | none => (s1, none)  -- KeyError after `date_of_birth` was stored
    | some fn =>
      ({s1 with
          state := COLLECTING_EMAIL,
          retry_counts := {s1.retry_counts with dob := 0}},
       some (str "Thank you, " ++ fn ++
         str "! Now, please provide your email address so I can check our records.", none))
  else
    let s' := {s with retry_counts := {s.retry_counts with dob := s.retry_counts.dob + 1}}
    if s'.retry_counts.dob ≥ 3 then
      match fb s'.conversation_history with
      | some t => (s', some (t, none))
      | none => (s', none)
    else (s', some (v.2, none))

def emailStep (fb : List Message → Option Str) (users : List (Str × Str))
    (s : Session) (input : Str) : StepResult :=
  let v := validate_email input
  if v.1 then
    let email := pyLower (pyStrip input)
    let rec_ := get_employment users email
    let s1 := {s with user_data :=
      {s.user_data with email := some email, employment_record := some rec_}}
    match s1.user_data.first_name with
    | none => (s1, none)  -- KeyError after `email`/`employment_record` were stored
    | some fn =>
      match rec_ with
      | some company_name =>
        ({s1 with
            state := VERIFYING_EMPLOYMENT,
            retry_counts := {s1.retry_counts with email := 0}},
         some (str "Hi " ++ fn ++ str ", it's great to talk with you! Our records show you work at " ++
           company_name ++ str ". Is that still correct?", none))
      | none =>
        ({s1 with
            state := ASKING_COMPANY,
            retry_counts := {s1.retry_counts with email := 0}},
         some (str "I couldn't find any employment records for " ++ email ++
           str ". Could you please tell me your current company name from this list of company?", none))
  else
    let s' := {s with retry_counts := {s.retry_counts with email := s.retry_counts.email + 1}}
    if s'.retry_counts.email ≥ 3 then
      match fb s'.conversation_history with
      | some t => (s', some (t, none))
      | none => (s', none)
    else (s', some (v.2, none))

def affirmVerify : List Str :=
  [str "yes", str "yeah", str "yep", str "correct", str "right",
   str "that's right", str "that's correct", str "yes it is"]

def denyVerify : List Str :=
  [str "no", str "nope", str "not correct", str "wrong", str "incorrect",
   str "no it's not"]

def verifyingStep (fb : List Message → Option Str) (s : Session) (input : Str) :
    StepResult :=
  if pyLower input ∈ affirmVerify then
    match s.user_data.first_name with
    | none => (s, none)
    | some fn =>
      ({s with state := COMPLETED, verified := true},
       some (str "Perfect! Thank you " ++ fn ++
         str ", your employment verification is complete. Have a great day!", none))
  else if pyLower input ∈ denyVerify then
    match s.user_data.first_name with
    | none => (s, none)
    | some fn =>
      ({s with state := ASKING_COMPANY},
       some (str "No worries, " ++ fn ++
         str "! Could you please tell me your current company name present in List of company?\nList of company", none))
  else
    match fb s.conversation_history with
    | some t => (s, some (t, none))
    | none => (s, none)

/-- `"list" in input.lower() and ("company" in input.lower() or "companies" in input.lower())`. -/
def isListRequest (input : Str) : Bool :=
  containsSub (pyLower input) (str "list") &&
    (containsSub (pyLower input) (str "company") ||
     containsSub (pyLower input) (str "companies"))

def askingCompanyStep (company_list : List Str) (s : Session) (input : Str) :
    StepResult :=
  if isListRequest input then
    let suggestions := company_list.take 10
    ({s with
        state := SELECTING_COMPANY,
        user_data := {s.user_data with company_matches := some suggestions}},
     some (str "Here are some companies in our system: " ++ numberedList suggestions ++
       str ". Please say the number of your company, or say your company name.",
       some suggestions))
  else
    match s.user_data.first_name with
    | none => (s, none)
    | some fn =>
      if input ∈ company_list then
        ({s with
            state := COMPLETED, verified := true,
            user_data := {s.user_data with company_name := some input}},
         some (str "Perfect! I've recorded your company as " ++ input ++
           str ". Your verification is complete, " ++ fn ++ str "!", none))
      else
        let ms := suggest_company_matches company_list input
        if ms.isEmpty then
          let suggestions := company_list.take 10
          ({s with
              state := SELECTING_COMPANY,
              user_data := {s.user_data with company_matches := some suggestions}},
           some (str "I couldn't find '" ++ input ++
             str "' in our records. Here are some companies from our list of company: " ++
             numberedList suggestions ++
             str ". Please say the number of your company, or say your company name if it's in our system.",
             some suggestions))
        else
          ({s with
              state := SELECTING_COMPANY,
              user_data := {s.user_data with company_matches := some ms}},
           some (str "I found some possible matches: " ++ numberedList ms ++
             str ". Please say the number of your company, or say your company name if it's not listed.",
             some ms))

def selectingCompanyStep (company_list : List Str) (s : Session) (input : Str) :
    StepResult :=
  let ms := s.user_data.company_matches.getD []
  match s.user_data.first_name with
  | none => (s, none)
  | some fn =>
    if pyIsDigitStr input && (1 ≤ parseNat input && parseNat input ≤ ms.length) then
      let selected := ms.getD (parseNat input - 1) []
      ({s with
          state := COMPLETED, verified := true,
          user_data := {s.user_data with company_name := some selected}},
       some (str "Great! I've updated your company to " ++ selected ++
         str ". Thank you " ++ fn ++ str ", your verification is complete!", none))
    else
      if input ∈ company_list then
        ({s with
            state := COMPLETED, verified := true,
            user_data := {s.user_data with company_name := some input}},
         some (str "Perfect! I've recorded your company as " ++ input ++
           str ". Your verification is complete, " ++ fn ++ str "!", none))
      else
        let new_matches := suggest_company_matches company_list input
        if new_matches.isEmpty then
          ({s with
              state := CONFIRMING_UNKNOWN_COMPANY,
              user_data := {s.user_data with pending_company_name := some input}},
           some (str "I still can't find '" ++ input ++
             str "' in our system. Would you like me to record it anyway? Say 'yes' to confirm or 'no' to try again.",
             none))
        else
          ({s with user_data := {s.user_data with company_matches := some new_matches}},
           some (str "Did you mean one of these? " ++ numberedList new_matches ++
             str ". Please say the number, or type 'none' if your company isn't listed.",
             some new_matches))

def affirmUnknown : List Str :=
  [str "yes", str "yeah", str "yep", str "correct", str "confirm", str "ok", str "okay"]

def confirmingUnknownStep (company_list : List Str) (s : Session) (input : Str) :
    StepResult :=
  match s.user_data.first_name with
  | none => (s, none)
  | some fn =>
    let pending := s.user_data.pending_company_name.getD []
    if pyLower input ∈ affirmUnknown then
      ({s with
          state := COMPLETED, verified := true,
          user_data := {s.user_data with company_name := some pending}},
       some (str "Understood. I've recorded your company as " ++ pending ++
         str ". Your verification is complete, " ++ fn ++ str "!", none))
    else
      let suggestions := company_list.take 10
      ({s with
          state := SELECTING_COMPANY,
          user_data := {s.user_data with company_matches := some suggestions}},
       some (str "No problem. Here are some companies from our list of company: " ++
         numberedList suggestions ++ str ". Please say the number or your company name.",
         some suggestions))

/-- The `if session["state"] == ... elif ...` dispatch of the `/api/chat`
endpoint (the final `else`, reached only in `COMPLETED`, delegates to the
fallback responder). -/
def stateStep (fb : List Message → Option Str) (today : Today)
    (users : List (Str × Str)) (company_list : List Str)
    (s : Session) (input : Str) : StepResult :=
  match s.state with
  | GREETING => greetingStep fb s input
  | COLLECTING_EXPERIENCE => experienceStep fb s input
  | COLLECTING_DOB => dobStep fb today s input
  | COLLECTING_EMAIL => emailStep fb users s input
  | VERIFYING_EMPLOYMENT => verifyingStep fb s input
  | ASKING_COMPANY => askingCompanyStep company_list s input
  | SELECTING_COMPANY => selectingCompanyStep company_list s input
  | CONFIRMING_UNKNOWN_COMPANY => confirmingUnknownStep company_list s input
  | COMPLETED =>
    match fb s.conversation_history with
    | some t => (s, some (t, none))
    | none => (s, none)

structure AgentResponse where
  message : Str
  state : SessionState
  suggestions : Option (List Str)
deriving DecidableEq, Repr

/-- Outcome of one `/api/chat` turn.  `session` is the stored session after
the turn, including mutations that survive an exception; `response` is `none`
when the turn raised (fallback responder failed, synthesizer failed, or a
`KeyError`); `savedTranscript` says whether `save_session_transcript` ran. -/
structure TurnOutcome where
  session : Session
  response : Option AgentResponse
  savedTranscript : Bool
deriving DecidableEq, Repr

/-- The `/api/chat` endpoint: strip the input, append the user message,
dispatch on the state, append the assistant reply, save the transcript when
the state is `COMPLETED`, then synthesize audio (which may fail after the
transcript was already saved). -/
def chat (fb : List Message → Option Str) (ttsOk : Bool) (today : Today)
    (users : List (Str × Str)) (company_list : List Str)
    (s0 : Session) (message : Str) : TurnOutcome :=
  let input := pyStrip message
  let s1 := {s0 with conversation_history :=
    s0.conversation_history ++ [⟨str "user", input⟩]}
  match stateStep fb today users company_list s1 input with
  | (s2, none) => ⟨s2, none, false⟩
  | (s2, some (text, sugg)) =>
    let s3 := {s2 with conversation_history :=
      s2.conversation_history ++ [⟨str "assistant", text⟩]}
    let saved := s3.state = COMPLETED
    if ttsOk then ⟨s3, some ⟨text, s3.state, sugg⟩, saved⟩
    else ⟨s3, none, saved⟩

/-! ## Audio-artifact lifecycle -/

/-- The mutable audio bookkeeping: the set of audio files existing on disk
(paths are unique in a filesystem) and the `audio_files_to_cleanup` list. -/
structure AudioState where
  files : List Str
  tracked : List Str
deriving DecidableEq, Repr

/-- `cleanup_audio_file` from `main.py`: if the file exists, remove it and
drop the first matching tracking entry; otherwise do nothing.  The
surrounding `try/except` swallows any error, so the Python function never
raises; the model is correspondingly total. -/
def cleanup_audio_file (filename : Str) (st : AudioState) : AudioState :=
  if filename ∈ st.files then
    { files := st.files.filter (· ≠ filename),
      tracked := if filename ∈ st.tracked then st.tracked.erase filename
                 else st.tracked }
  else st

/-- `delayed_cleanup_audio`: after the (real-time) delay it performs exactly
`cleanup_audio_file`. -/
def delayed_cleanup_audio (filename : Str) (st : AudioState) : AudioState :=
  cleanup_audio_file filename st

/-! ## Fixtures for concrete witnesses -/

/-- A fallback responder that always succeeds with a fixed reply. -/
def exampleFb : List Message → Option Str := fun _ => some (str "AI reply")

def exampleToday : Today := ⟨2026, 10, 12⟩

/-- The session as `/api/session/create` builds it. -/
def freshSession : Session :=
  { conversation_history := [⟨str "assistant",
      str "Hello! Welcome to the Employment Verification System. Let's start by collecting some information. What is your full name?"⟩],
    state := GREETING, user_data := {}, verified := false, retry_counts := {} }

/-- A session waiting on employment confirmation. -/
def verifySession : Session :=
  { conversation_history := [], state := VERIFYING_EMPLOYMENT,
    user_data := { first_name := some (str "Bob") }, verified := false,
    retry_counts := {} }

/-- A session collecting years of experience. -/
def xpSession : Session :=
  { conversation_history := [], state := COLLECTING_EXPERIENCE,
    user_data := { name := some (str "Bob Smith"), first_name := some (str "Bob") },
    verified := false, retry_counts := {} }

/-! ## Claims -/

/-- **C7.** Deleting the same audio artifact twice, in any order of manual and
scheduled deletion (both run `cleanup_audio_file`), never raises (the model is
total, mirroring the `try/except` that swallows every error) and never removes
the tracking entry more than once: the second deletion of an already-absent
artifact is a no-op, and one deletion removes at most one tracking entry. -/
theorem cleanup_audio_file_idempotent (f : Str) (st : AudioState) :
    cleanup_audio_file f (cleanup_audio_file f st) = cleanup_audio_file f st ∧
    st.tracked.count f ≤ (cleanup_audio_file f st).tracked.count f + 1 := by
  unfold cleanup_audio_file
  by_cases hf : f ∈ st.files
  · simp only [hf, if_pos]
    constructor
    · have : f ∉ st.files.filter (· ≠ f) := by simp
      simp [this]
    · by_cases ht : f ∈ st.tracked
      · simp only [ht, if_pos, List.count_erase_self]
        omega
      · simp [ht]
  · simp [hf]

/-- **C10.** The negative-value rejection branch of
`validate_years_of_experience` is unreachable: `\d+` extracts only
non-negative integers, so the validator never returns the negative-value
rejection; in particular `"-5 years"` is accepted with value `5`, the minus
sign being discarded. -/
theorem experience_negative_branch_unreachable :
    (∀ s : Str, validate_years_of_experience s ≠
      (false, str "Years of experience cannot be negative. How many years of experience do you have?", -1)) ∧
    validate_years_of_experience (str "-5 years") = (true, [], 5) := by
  refine ⟨fun s => ?_, by decide⟩
  unfold validate_years_of_experience
  dsimp only
  split
  · decide
  · split
    · decide
    · split_ifs with h1 h2
      · exfalso; omega
      · intro h
        have h3 := congrArg (fun t => t.2.2) h
        simp only at h3
        omega
      · intro h
        have h3 := congrArg (fun t => t.1) h
        simp only at h3
        exact absurd h3 (by decide)

/-- **C10 witness**: the universal part applied at a concrete input. -/
theorem experience_negative_branch_unreachable_witness :
    validate_years_of_experience (str "0 years") ≠
      (false, str "Years of experience cannot be negative. How many years of experience do you have?", -1) :=
  experience_negative_branch_unreachable.1 (str "0 years")

/-! ## Field-collecting states, abstractly -/

inductive FieldKind | name | experience | dob | email
deriving DecidableEq, Repr

/-- The state that collects each field. -/
def fieldState : FieldKind → SessionState
  | .name => GREETING
  | .experience => COLLECTING_EXPERIENCE
  | .dob => COLLECTING_DOB
  | .email => COLLECTING_EMAIL

/-- Whether the field's validator accepts the input. -/
def fieldAccepts (today : Today) : FieldKind → Str → Bool
  | .name, s => (validate_name s).1
  | .experience, s => (validate_years_of_experience s).1
  | .dob, s => (validate_date_of_birth today s).1
  | .email, s => (validate_email s).1

/-- The validator's rejection reason for the field. -/
def fieldReason (today : Today) : FieldKind → Str → Str
  | .name, s => (validate_name s).2
  | .experience, s => (validate_years_of_experience s).2.1
  | .dob, s => (validate_date_of_birth today s).2
  | .email, s => (validate_email s).2

/-- The field's retry counter. -/
def retryOf : FieldKind → RetryCounts → Nat
  | .name, r => r.name
  | .experience, r => r.experience
  | .dob, r => r.dob
  | .email, r => r.email

/-- The session after the turn's user message has been appended (the first
mutation `/api/chat` performs). -/
def withUserMsg (s0 : Session) (m : Str) : Session :=
  {s0 with conversation_history :=
    s0.conversation_history ++ [⟨str "user", pyStrip m⟩]}

/-- Decomposition of a `/api/chat` turn into the dispatched branch: the
stored session carries the branch's state, fields, counters and verified
flag; the transcript is saved exactly when the branch replied and left the
session `COMPLETED`; and (with the synthesizer up) the reply text is the
branch's reply text. -/
lemma chat_parts (fb : List Message → Option Str) (ttsOk : Bool) (today : Today)
    (users : List (Str × Str)) (cl : List Str) (s0 : Session) (m : Str) :
    (chat fb ttsOk today users cl s0 m).session.state =
      (stateStep fb today users cl (withUserMsg s0 m) (pyStrip m)).1.state ∧
    (chat fb ttsOk today users cl s0 m).session.user_data =
      (stateStep fb today users cl (withUserMsg s0 m) (pyStrip m)).1.user_data ∧
    (chat fb ttsOk today users cl s0 m).session.retry_counts =
      (stateStep fb today users cl (withUserMsg s0 m) (pyStrip m)).1.retry_counts ∧
    (chat fb ttsOk today users cl s0 m).session.verified =
      (stateStep fb today users cl (withUserMsg s0 m) (pyStrip m)).1.verified ∧
    (chat fb ttsOk today users cl s0 m).savedTranscript =
      ((stateStep fb today users cl (withUserMsg s0 m) (pyStrip m)).2.isSome &&
        decide ((stateStep fb today users cl (withUserMsg s0 m) (pyStrip m)).1.state = COMPLETED)) ∧
    (chat fb ttsOk today users cl s0 m).response.map (fun a => a.message) =
      (if ttsOk then
        (stateStep fb today users cl (withUserMsg s0 m) (pyStrip m)).2.map (fun p => p.1)
       else none) := by
  unfold chat withUserMsg
  cases hr : stateStep fb today users cl
      {s0 with conversation_history :=
        s0.conversation_history ++ [⟨str "user", pyStrip m⟩]} (pyStrip m) with
  | mk s2 r2 =>
    cases r2 with
    | none => cases ttsOk <;> simp [hr]
    | some p =>
      obtain ⟨text, sugg⟩ := p
      cases ttsOk <;> simp [hr]

/-- The reject path of each field-collecting branch: the retry counter is
incremented first; below the ceiling the validator's reason is the reply, at
or above it the fallback responder is consulted with the (already appended)
conversation history; the state and all `user_data` fields are untouched. -/
lemma stateStep_field_reject (f : FieldKind) (fb : List Message → Option Str)
    (today : Today) (users : List (Str × Str)) (cl : List Str)
    (s : Session) (input : Str)
    (hstate : s.state = fieldState f)
    (hrej : fieldAccepts today f input = false) :
    (stateStep fb today users cl s input).1.state = s.state ∧
    (stateStep fb today users cl s input).1.user_data = s.user_data ∧
    (stateStep fb today users cl s input).1.conversation_history = s.conversation_history ∧
    retryOf f (stateStep fb today users cl s input).1.retry_counts =
      retryOf f s.retry_counts + 1 ∧
    (stateStep fb today users cl s input).2 =
      (if retryOf f s.retry_counts + 1 ≥ 3 then
        (fb s.conversation_history).map (fun t => (t, none))
       else some (fieldReason today f input, none)) := by
  cases f <;>
    simp only [fieldState] at hstate <;>
    simp only [fieldAccepts] at hrej <;>
    simp only [stateStep, hstate, greetingStep, experienceStep, dobStep, emailStep,
      hrej, Bool.false_eq_true, if_false, retryOf, fieldReason] <;>
    refine ⟨?_, ?_, ?_, ?_, ?_⟩ <;>
    split_ifs <;>
    first
      | rfl
      | (cases hfb : fb s.conversation_history <;> simp [hfb])

/-- The accept path of each field-collecting branch: the field's retry
counter is reset to zero and the branch replies.  Only the `dob` and `email`
accept branches read `first_name` (and would raise `KeyError` without it;
the name branch computes the first name from the input itself, the
experience branch never reads it), so only they need the session to carry
one — which every session that has left `GREETING` does. -/
lemma stateStep_field_accept (f : FieldKind) (fb : List Message → Option Str)
    (today : Today) (users : List (Str × Str)) (cl : List Str)
    (s : Session) (input : Str)
    (hstate : s.state = fieldState f)
    (hacc : fieldAccepts today f input = true)
    (hfn : (f = .dob ∨ f = .email) → s.user_data.first_name.isSome) :
    retryOf f (stateStep fb today users cl s input).1.retry_counts = 0 ∧
    (stateStep fb today users cl s input).2.isSome := by
  cases f <;>
    simp only [fieldState] at hstate <;>
    simp only [fieldAccepts] at hacc <;>
    simp only [stateStep, hstate, greetingStep, experienceStep, dobStep, emailStep,
      hacc, if_true, retryOf]
  · simp
  · simp
  · obtain ⟨fn, hfn'⟩ := Option.isSome_iff_exists.mp (hfn (Or.inl rfl))
    simp [hfn', retryOf]
  · -- email: the looked-up record may or may not exist
    obtain ⟨fn, hfn'⟩ := Option.isSome_iff_exists.mp (hfn (Or.inr rfl))
    simp only [hfn']
    cases get_employment users (pyLower (pyStrip input)) <;> simp [retryOf]

/-- **C5.** In every field-collecting state, a rejected input increments the
field's retry counter; below 3 the reply is the validator's rejection reason
and the state is unchanged; at 3 (and beyond) the reply is produced by the
fallback responder on the full conversation history (user message included)
and the state is still unchanged; and a successful validation resets the
field's counter to 0.  The reject clause holds for every session in the
field's state (in particular for fresh `GREETING` sessions, which carry no
first name yet); the accept clause assumes a first name only for the `dob`
and `email` fields, whose accept branches read it before resetting the
counter. -/
theorem field_retry_policy (f : FieldKind) (fb : List Message → Option Str)
    (today : Today) (users : List (Str × Str)) (cl : List Str)
    (s : Session) (m : Str)
    (hstate : s.state = fieldState f) :
    (fieldAccepts today f (pyStrip m) = false →
      retryOf f (chat fb true today users cl s m).session.retry_counts =
        retryOf f s.retry_counts + 1 ∧
      (chat fb true today users cl s m).session.state = s.state ∧
      (retryOf f s.retry_counts + 1 < 3 →
        (chat fb true today users cl s m).response.map (fun a => a.message) =
          some (fieldReason today f (pyStrip m))) ∧
      (3 ≤ retryOf f s.retry_counts + 1 →
        (chat fb true today users cl s m).response.map (fun a => a.message) =
          fb (s.conversation_history ++ [⟨str "user", pyStrip m⟩]))) ∧
    (fieldAccepts today f (pyStrip m) = true →
      ((f = .dob ∨ f = .email) → s.user_data.first_name.isSome) →
      retryOf f (chat fb true today users cl s m).session.retry_counts = 0) := by
  obtain ⟨hs, hu, hr, hv, hsave, hresp⟩ := chat_parts fb true today users cl s m
  constructor
  · intro hrej
    obtain ⟨r1, r2, r3, r4, r5⟩ :=
      stateStep_field_reject f fb today users cl (withUserMsg s m) (pyStrip m)
        hstate hrej
    refine ⟨?_, ?_, ?_, ?_⟩
    · rw [hr, r4]; rfl
    · rw [hs, r1]; rfl
    · intro hlt
      rw [hresp, if_pos rfl, r5]
      have heq : retryOf f (withUserMsg s m).retry_counts = retryOf f s.retry_counts := rfl
      have : ¬ (retryOf f (withUserMsg s m).retry_counts + 1 ≥ 3) := by omega
      rw [if_neg this]
      rfl
    · intro hge
      rw [hresp, if_pos rfl, r5]
      have heq : retryOf f (withUserMsg s m).retry_counts = retryOf f s.retry_counts := rfl
      have : retryOf f (withUserMsg s m).retry_counts + 1 ≥ 3 := by omega
      rw [if_pos this]
      show ((fb (withUserMsg s m).conversation_history).map _).map _ = _
      cases hfb : fb (withUserMsg s m).conversation_history with
      | none => simpa [withUserMsg] using hfb.symm
      | some t => simpa [withUserMsg] using hfb.symm
  · intro hacc hfn
    obtain ⟨a1, a2⟩ :=
      stateStep_field_accept f fb today users cl (withUserMsg s m) (pyStrip m)
        hstate hacc hfn
    rw [hr, a1]

/-- **C5 witness**: the spec's own scenario on a reachable session — input
`"Bob"` on a fresh `GREETING` session (no first name yet) is rejected, the
name retry counter moves 0 → 1, the state stays `GREETING` and the reply is
the validator's two-word clarification reason; and accepting `"Bob Smith"`
on the same session resets the name counter to 0. -/
theorem field_retry_policy_witness :
    retryOf .name
      (chat exampleFb true exampleToday [] [str "Acme"] freshSession
        (str "Bob")).session.retry_counts =
      retryOf .name freshSession.retry_counts + 1 ∧
    (chat exampleFb true exampleToday [] [str "Acme"] freshSession
      (str "Bob")).session.state = freshSession.state ∧
    (chat exampleFb true exampleToday [] [str "Acme"] freshSession
        (str "Bob")).response.map (fun a => a.message) =
      some (fieldReason exampleToday .name (pyStrip (str "Bob"))) ∧
    retryOf .name
      (chat exampleFb true exampleToday [] [str "Acme"] freshSession
        (str "Bob Smith")).session.retry_counts = 0 := by
  have h := (field_retry_policy .name exampleFb exampleToday [] [str "Acme"]
    freshSession (str "Bob") (by decide)).1 (by decide)
  have h2 := (field_retry_policy .name exampleFb exampleToday [] [str "Acme"]
    freshSession (str "Bob Smith") (by decide)).2 (by decide)
    (fun hor => absurd hor (by decide))
  exact ⟨h.1, h.2.1, h.2.2.1 (by decide), h2⟩

/-- **C9.** Once a field's retry counter has reached 3, every further
rejected input for that field is answered by the fallback responder (the
deterministic branch that emits the validator's reason is no longer taken),
the state stays put, and the counter keeps incrementing without bound. -/
theorem field_escalation_persists (f : FieldKind) (fb : List Message → Option Str)
    (today : Today) (users : List (Str × Str)) (cl : List Str)
    (s : Session) (m : Str)
    (hstate : s.state = fieldState f)
    (hceil : 3 ≤ retryOf f s.retry_counts)
    (hrej : fieldAccepts today f (pyStrip m) = false) :
    retryOf f (chat fb true today users cl s m).session.retry_counts =
      retryOf f s.retry_counts + 1 ∧
    (chat fb true today users cl s m).session.state = s.state ∧
    (chat fb true today users cl s m).response.map (fun a => a.message) =
      fb (s.conversation_history ++ [⟨str "user", pyStrip m⟩]) := by
  obtain ⟨hs, hu, hr, hv, hsave, hresp⟩ := chat_parts fb true today users cl s m
  obtain ⟨r1, r2, r3, r4, r5⟩ :=
    stateStep_field_reject f fb today users cl (withUserMsg s m) (pyStrip m)
      hstate hrej
  refine ⟨by rw [hr, r4]; rfl, by rw [hs, r1]; rfl, ?_⟩
  rw [hresp, if_pos rfl, r5]
  have : retryOf f (withUserMsg s m).retry_counts + 1 ≥ 3 := by
    have : retryOf f (withUserMsg s m).retry_counts = retryOf f s.retry_counts := rfl
    omega
  rw [if_pos this]
  cases hfb : fb (withUserMsg s m).conversation_history with
  | none => simpa [withUserMsg] using hfb.symm
  | some t => simpa [withUserMsg] using hfb.symm

/-- **C9 witness**: with the experience counter already at 3, a fourth
rejection is answered by the fallback responder and the counter moves to 4. -/
theorem field_escalation_persists_witness :
    retryOf .experience
      (chat exampleFb true exampleToday [] [str "Acme"]
        {xpSession with retry_counts := {experience := 3}} (str "abc")).session.retry_counts =
      retryOf .experience ({xpSession with retry_counts := {experience := 3}} : Session).retry_counts + 1 ∧
    (chat exampleFb true exampleToday [] [str "Acme"]
        {xpSession with retry_counts := {experience := 3}} (str "abc")).response.map
      (fun a => a.message) =
      exampleFb (({xpSession with retry_counts := {experience := 3}} : Session).conversation_history ++
        [⟨str "user", pyStrip (str "abc")⟩]) := by
  have h := field_escalation_persists .experience exampleFb exampleToday [] [str "Acme"]
    {xpSession with retry_counts := {experience := 3}} (str "abc")
    (by decide) (by decide) (by decide)
  exact ⟨h.1, h.2.2⟩

/-- A fallback responder whose upstream call fails. -/
def failFb : List Message → Option Str := fun _ => none

/-- **C1 counterexample.** An experience input of `"60"` is *not* accepted:
the validator returns invalid (with a confirmation-phrased message), and on
that turn the state machine stores nothing, stays in
`COLLECTING_EXPERIENCE`, and increments the retry counter; likewise a
date of birth making the caller 126 years old is returned invalid. -/
theorem overflow_not_accepted_cex :
    (validate_years_of_experience (str "60")).1 = false ∧
    (chat exampleFb true exampleToday [] [str "Acme"] xpSession (str "60")).session.state =
      COLLECTING_EXPERIENCE ∧
    (chat exampleFb true exampleToday [] [str "Acme"] xpSession
        (str "60")).session.user_data.years_of_experience = none ∧
    (chat exampleFb true exampleToday [] [str "Acme"] xpSession
        (str "60")).session.retry_counts.experience = 1 ∧
    (validate_date_of_birth exampleToday (str "01/01/1900")).1 = false := by
  decide

/-- **C1 (amended).** An experience value above 50 (resp. a computed age
above 80) is *rejected* by the validator with a confirmation-phrased message
(the experience validator still carries the parsed value), so the state
machine does not store the value and does not advance on that turn — it
takes the ordinary reject path, incrementing the retry counter. -/
theorem overflow_values_flag_and_reject :
    (∀ (s n : Str) (rest : List Str),
      hasMetaPhrase (pyLower (pyStrip s)) = false →
      digitRuns (pyLower (pyStrip s)) = n :: rest →
      50 < parseNat n →
      validate_years_of_experience s =
        (false,
         str "Just to confirm, you said " ++ intToStr (parseNat n) ++
           str " years of experience — is that correct?",
         (parseNat n : Int))) ∧
    (∀ (today : Today) (s : Str) (d : PyDate),
      hasMetaPhrase (pyLower (pyStrip s)) = false →
      dobParse (pyStrip s) = some d →
      80 < computeAge today d →
      validate_date_of_birth today s =
        (false,
         str "Just to confirm, that would make you " ++ intToStr (computeAge today d) ++
           str " years old. Is that correct?")) ∧
    (∀ (fb : List Message → Option Str) (ttsOk : Bool) (today : Today)
       (users : List (Str × Str)) (cl : List Str) (s : Session) (m : Str),
      s.state = COLLECTING_EXPERIENCE →
      (validate_years_of_experience (pyStrip m)).1 = false →
      (chat fb ttsOk today users cl s m).session.state = COLLECTING_EXPERIENCE ∧
      (chat fb ttsOk today users cl s m).session.user_data.years_of_experience =
        s.user_data.years_of_experience ∧
      (chat fb ttsOk today users cl s m).session.retry_counts.experience =
        s.retry_counts.experience + 1) := by
  refine ⟨?_, ?_, ?_⟩
  · intro s n rest hmeta hdr hgt
    unfold validate_years_of_experience
    dsimp only
    rw [hmeta]
    simp only [Bool.false_eq_true, if_false, hdr]
    have h1 : ¬((parseNat n : Int) < 0) := by omega
    have h2 : (parseNat n : Int) > 50 := by exact_mod_cast hgt
    rw [if_neg h1, if_pos h2]
  · intro today s d hmeta hparse hage
    unfold validate_date_of_birth
    dsimp only
    rw [hmeta]
    simp only [Bool.false_eq_true, if_false, hparse]
    rw [if_neg (by omega : ¬(computeAge today d < 18)),
      if_pos (by omega : computeAge today d > 80)]
  · intro fb ttsOk today users cl s m hstate hrej
    obtain ⟨hs, hu, hr, _, _, _⟩ := chat_parts fb ttsOk today users cl s m
    obtain ⟨r1, r2, _, r4, _⟩ :=
      stateStep_field_reject .experience fb today users cl (withUserMsg s m)
        (pyStrip m) hstate hrej
    refine ⟨by rw [hs, r1]; exact hstate, by rw [hu, r2]; rfl, by rw [hr]; exact r4⟩

/-- **C1 (amended) witness**: `"60"` is rejected carrying value 60, and
`"01/01/1900"` (age 126 as of 2026-10-12) is rejected with the
confirmation message. -/
theorem overflow_values_flag_and_reject_witness :
    validate_years_of_experience (str "60") =
      (false,
       str "Just to confirm, you said " ++ intToStr (parseNat (str "60")) ++
         str " years of experience — is that correct?",
       (parseNat (str "60") : Int)) ∧
    validate_date_of_birth exampleToday (str "01/01/1900") =
      (false,
       str "Just to confirm, that would make you " ++
         intToStr (computeAge exampleToday ⟨1900, 1, 1⟩) ++
         str " years old. Is that correct?") ∧
    (chat exampleFb true exampleToday [] [str "Acme"] xpSession
        (str "60")).session.retry_counts.experience =
      xpSession.retry_counts.experience + 1 :=
  ⟨overflow_values_flag_and_reject.1 (str "60") (str "60") [] (by decide) (by decide)
      (by decide),
   overflow_values_flag_and_reject.2.1 exampleToday (str "01/01/1900") ⟨1900, 1, 1⟩
      (by decide) (by decide) (by decide),
   (overflow_values_flag_and_reject.2.2 exampleFb true exampleToday [] [str "Acme"]
      xpSession (str "60") (by decide) (by decide)).2.2⟩

/-- **C2 counterexample.** Transcript persistence is *not* invoked exactly
once per session: a session completed by answering `"yes"` in
`VERIFYING_EMPLOYMENT` saves its transcript on that turn, and the very next
submit-turn on the same (still `COMPLETED`) session saves it again. -/
theorem transcript_saved_again_cex :
    (chat exampleFb true exampleToday [] [str "Acme"] verifySession
        (str "yes")).savedTranscript = true ∧
    (chat exampleFb true exampleToday [] [str "Acme"] verifySession
        (str "yes")).session.state = COMPLETED ∧
    (chat exampleFb true exampleToday [] [str "Acme"]
        (chat exampleFb true exampleToday [] [str "Acme"] verifySession
          (str "yes")).session
        (str "hello")).savedTranscript = true := by
  decide

/-- **C2 (amended).** Transcript persistence runs on exactly those turns
that reply and leave the session in `COMPLETED` — i.e. on the turn that
first reaches `COMPLETED` *and on every subsequent successful submit-turn*
of that session (persistence is at-least-once per completed session, not
exactly-once). -/
theorem transcript_saved_iff_completed (fb : List Message → Option Str)
    (ttsOk : Bool) (today : Today) (users : List (Str × Str)) (cl : List Str)
    (s : Session) (m : Str) :
    (chat fb ttsOk today users cl s m).savedTranscript =
      ((stateStep fb today users cl (withUserMsg s m) (pyStrip m)).2.isSome &&
        decide ((chat fb ttsOk today users cl s m).session.state = COMPLETED)) := by
  obtain ⟨hs, _, _, _, hsave, _⟩ := chat_parts fb ttsOk today users cl s m
  rw [hsave, hs]

/-- **C3 counterexample.** A turn on which the synthesizer fails surfaces a
turn-level failure (`response = none`) but *does* mutate the session: a valid
name input still advances `GREETING → COLLECTING_EXPERIENCE`, stores the
name, and grows the history, so the caller cannot retry the turn against an
unchanged session. -/
theorem failed_turn_mutates_state_cex :
    (chat exampleFb false exampleToday [] [str "Acme"] freshSession
        (str "Bob Smith")).response = none ∧
    freshSession.state = GREETING ∧
    (chat exampleFb false exampleToday [] [str "Acme"] freshSession
        (str "Bob Smith")).session.state = COLLECTING_EXPERIENCE ∧
    (chat exampleFb false exampleToday [] [str "Acme"] freshSession
        (str "Bob Smith")).session.user_data.name = some (str "Bob Smith") ∧
    (chat exampleFb false exampleToday [] [str "Acme"] freshSession
        (str "Bob Smith")).session.conversation_history ≠
      freshSession.conversation_history := by
  decide

/-- **C3 (amended).** When the fallback responder or the synthesizer fails,
the turn surfaces a turn-level failure (no response), but the session is
*not* rolled back: on synthesizer failure the stored session and the
transcript save are exactly those of the corresponding successful turn (only
the response is lost); on a branch exception (fallback failure or missing
key) the session keeps every mutation the branch performed before raising,
the appended user message included. -/
theorem upstream_failure_surfaced_with_mutations (fb : List Message → Option Str)
    (today : Today) (users : List (Str × Str)) (cl : List Str)
    (s : Session) (m : Str) :
    ((chat fb false today users cl s m).response = none ∧
     (chat fb false today users cl s m).session =
       (chat fb true today users cl s m).session ∧
     (chat fb false today users cl s m).savedTranscript =
       (chat fb true today users cl s m).savedTranscript) ∧
    ((stateStep fb today users cl (withUserMsg s m) (pyStrip m)).2 = none →
      ∀ ttsOk,
        (chat fb ttsOk today users cl s m).response = none ∧
        (chat fb ttsOk today users cl s m).session =
          (stateStep fb today users cl (withUserMsg s m) (pyStrip m)).1) := by
  constructor
  · unfold chat
    cases hr : stateStep fb today users cl
        {s with conversation_history :=
          s.conversation_history ++ [⟨str "user", pyStrip m⟩]} (pyStrip m) with
    | mk s2 r2 =>
      cases r2 with
      | none => simp [hr]
      | some p =>
        obtain ⟨text, sugg⟩ := p
        simp [hr]
  · intro hnone ttsOk
    simp only [withUserMsg] at hnone ⊢
    unfold chat
    cases hr : stateStep fb today users cl
        {s with conversation_history :=
          s.conversation_history ++ [⟨str "user", pyStrip m⟩]} (pyStrip m) with
    | mk s2 r2 =>
      rw [hr] at hnone
      simp only at hnone
      subst hnone
      simp [hr]

/-- **C3 (amended) witness**: the branch-exception clause at a concrete
input — an ambiguous reply in `VERIFYING_EMPLOYMENT` with a failing fallback
responder leaves a turn failure whose stored session is the branch's
(user message appended). -/
theorem upstream_failure_surfaced_with_mutations_witness :
    (chat failFb true exampleToday [] [str "Acme"] verifySession
        (str "maybe")).response = none ∧
    (chat failFb true exampleToday [] [str "Acme"] verifySession
        (str "maybe")).session =
      (stateStep failFb exampleToday [] [str "Acme"]
        (withUserMsg verifySession (str "maybe")) (pyStrip (str "maybe"))).1 :=
  (upstream_failure_surfaced_with_mutations failFb exampleToday [] [str "Acme"]
    verifySession (str "maybe")).2 (by decide) true

/-- **C6.** In `ASKING_COMPANY`, an input that is neither an explicit
directory request nor exactly a directory entry moves the session to
`SELECTING_COMPANY` with a non-empty candidate list — the fuzzy matches if
any, otherwise the first at most 10 directory entries (non-empty whenever
the directory is) — and the employer field is not recorded on that turn. -/
theorem asking_company_never_silently_accepts (fb : List Message → Option Str)
    (ttsOk : Bool) (today : Today) (users : List (Str × Str)) (cl : List Str)
    (s : Session) (m : Str)
    (hstate : s.state = ASKING_COMPANY)
    (hfn : s.user_data.first_name.isSome)
    (hnotreq : isListRequest (pyStrip m) = false)
    (hnotmem : pyStrip m ∉ cl)
    (hne : cl ≠ []) :
    (chat fb ttsOk today users cl s m).session.state = SELECTING_COMPANY ∧
    (chat fb ttsOk today users cl s m).session.user_data.company_matches =
      some (if (suggest_company_matches cl (pyStrip m)).isEmpty then cl.take 10
            else suggest_company_matches cl (pyStrip m)) ∧
    (if (suggest_company_matches cl (pyStrip m)).isEmpty then cl.take 10
     else suggest_company_matches cl (pyStrip m)) ≠ [] ∧
    (chat fb ttsOk today users cl s m).session.user_data.company_name =
      s.user_data.company_name := by
  obtain ⟨fn, hfn'⟩ := Option.isSome_iff_exists.mp hfn
  obtain ⟨hs, hu, _, _, _, _⟩ := chat_parts fb ttsOk today users cl s m
  have hst2 : (withUserMsg s m).state = ASKING_COMPANY := hstate
  have hfn2 : (withUserMsg s m).user_data.first_name = some fn := hfn'
  have hstep : stateStep fb today users cl (withUserMsg s m) (pyStrip m) =
      askingCompanyStep cl (withUserMsg s m) (pyStrip m) := by
    simp only [stateStep, hst2]
  rw [hstep] at hs hu
  unfold askingCompanyStep at hs hu
  rw [hnotreq] at hs hu
  simp only [Bool.false_eq_true, if_false, hfn2, if_neg hnotmem] at hs hu
  cases hms : (suggest_company_matches cl (pyStrip m)).isEmpty with
  | true =>
    simp only [hms, if_true] at hs hu ⊢
    refine ⟨by rw [hs], by rw [hu], ?_, by rw [hu]; exact rfl⟩
    simp only [ne_eq, List.take_eq_nil_iff]
    push_neg
    exact ⟨by omega, hne⟩
  | false =>
    simp only [hms, Bool.false_eq_true, if_false] at hs hu ⊢
    refine ⟨by rw [hs], by rw [hu], ?_, by rw [hu]; exact rfl⟩
    simpa using hms

/-- **C6 witness**: input `"Xyz"` in `ASKING_COMPANY` against the directory
`["Acme"]` (no fuzzy match) moves to `SELECTING_COMPANY` offering the first
directory entries, recording no employer. -/
theorem asking_company_never_silently_accepts_witness :
    (chat exampleFb true exampleToday [] [str "Acme"]
        {verifySession with state := ASKING_COMPANY} (str "Xyz")).session.state =
      SELECTING_COMPANY ∧
    (chat exampleFb true exampleToday [] [str "Acme"]
        {verifySession with state := ASKING_COMPANY}
        (str "Xyz")).session.user_data.company_name = none := by
  have h := asking_company_never_silently_accepts exampleFb true exampleToday []
    [str "Acme"] {verifySession with state := ASKING_COMPANY} (str "Xyz")
    (by decide) (by decide) (by decide) (by decide) (by decide)
  exact ⟨h.1, h.2.2.2⟩

/-- **C8.** In `SELECTING_COMPANY`, a numeral outside `[1, |pendingCandidates|]`
falls through to the manual-input path — exact directory match completes,
otherwise fuzzy matching, otherwise the unknown-company confirmation — with
no error raised and no out-of-bounds candidate selection: the guard
`isdigit and 1 <= int <= len(matches)` short-circuits, so indexing only ever
happens in range. -/
theorem out_of_range_selection_is_manual_input (fb : List Message → Option Str)
    (today : Today) (users : List (Str × Str)) (cl : List Str)
    (s : Session) (m : Str)
    (hstate : s.state = SELECTING_COMPANY)
    (hfn : s.user_data.first_name.isSome)
    (hdig : pyIsDigitStr (pyStrip m) = true)
    (hoob : parseNat (pyStrip m) < 1 ∨
      (s.user_data.company_matches.getD []).length < parseNat (pyStrip m)) :
    (chat fb true today users cl s m).response ≠ none ∧
    ((pyStrip m ∈ cl ∧
        (chat fb true today users cl s m).session.state = COMPLETED ∧
        (chat fb true today users cl s m).session.user_data.company_name =
          some (pyStrip m) ∧
        (chat fb true today users cl s m).session.verified = true) ∨
     (pyStrip m ∉ cl ∧ suggest_company_matches cl (pyStrip m) ≠ [] ∧
        (chat fb true today users cl s m).session.state = SELECTING_COMPANY ∧
        (chat fb true today users cl s m).session.user_data.company_matches =
          some (suggest_company_matches cl (pyStrip m))) ∨
     (pyStrip m ∉ cl ∧ suggest_company_matches cl (pyStrip m) = [] ∧
        (chat fb true today users cl s m).session.state = CONFIRMING_UNKNOWN_COMPANY ∧
        (chat fb true today users cl s m).session.user_data.pending_company_name =
          some (pyStrip m))) := by
  obtain ⟨fn, hfn'⟩ := Option.isSome_iff_exists.mp hfn
  obtain ⟨hs, hu, _, _, _, hresp⟩ := chat_parts fb true today users cl s m
  have hst2 : (withUserMsg s m).state = SELECTING_COMPANY := hstate
  have hfn2 : (withUserMsg s m).user_data.first_name = some fn := hfn'
  have hstep : stateStep fb today users cl (withUserMsg s m) (pyStrip m) =
      selectingCompanyStep cl (withUserMsg s m) (pyStrip m) := by
    simp only [stateStep, hst2]
  rw [hstep] at hs hu hresp
  unfold selectingCompanyStep at hs hu hresp
  have hguard : (pyIsDigitStr (pyStrip m) &&
      (decide (1 ≤ parseNat (pyStrip m)) &&
        decide (parseNat (pyStrip m) ≤
          ((withUserMsg s m).user_data.company_matches.getD []).length))) = false := by
    have hms : ((withUserMsg s m).user_data.company_matches.getD []).length =
        (s.user_data.company_matches.getD []).length := rfl
    rcases hoob with h | h <;> simp [hdig, hms] <;> omega
  simp only [hfn2, hguard, Bool.false_eq_true, if_false] at hs hu hresp
  by_cases hmem : pyStrip m ∈ cl
  · simp only [if_pos hmem] at hs hu hresp
    refine ⟨?_, Or.inl ⟨hmem, by rw [hs], by rw [hu], ?_⟩⟩
    · intro hc
      rw [hc] at hresp
      simp at hresp
    · have hv := (chat_parts fb true today users cl s m).2.2.2.1
      rw [hstep] at hv
      unfold selectingCompanyStep at hv
      simp only [hfn2, hguard, Bool.false_eq_true, if_false, if_pos hmem] at hv
      rw [hv]
  · simp only [if_neg hmem] at hs hu hresp
    cases hsc : (suggest_company_matches cl (pyStrip m)).isEmpty with
    | true =>
      simp only [hsc, if_true] at hs hu hresp
      refine ⟨?_, Or.inr (Or.inr ⟨hmem, by simpa using hsc, by rw [hs], by rw [hu]⟩)⟩
      intro hc
      rw [hc] at hresp
      simp at hresp
    | false =>
      simp only [hsc, Bool.false_eq_true, if_false] at hs hu hresp
      refine ⟨?_, Or.inr (Or.inl ⟨hmem, by simpa using hsc, by rw [hs]; exact hst2, by rw [hu]⟩)⟩
      intro hc
      rw [hc] at hresp
      simp at hresp

/-- **C8 witness**: in `SELECTING_COMPANY` with no pending candidates, the
numeral `"12"` (out of the empty range) is handled as manual input; since it
is not in the directory and has no fuzzy match, the session asks to confirm
the unknown company — no error, no indexing. -/
theorem out_of_range_selection_is_manual_input_witness :
    (chat exampleFb true exampleToday [] [str "Acme"]
        {verifySession with state := SELECTING_COMPANY} (str "12")).response ≠ none ∧
    (chat exampleFb true exampleToday [] [str "Acme"]
        {verifySession with state := SELECTING_COMPANY} (str "12")).session.state =
      CONFIRMING_UNKNOWN_COMPANY := by
  have h := out_of_range_selection_is_manual_input exampleFb exampleToday []
    [str "Acme"] {verifySession with state := SELECTING_COMPANY} (str "12")
    (by decide) (by decide) (by decide) (Or.inr (by decide))
  refine ⟨h.1, ?_⟩
  rcases h.2 with ⟨hmem, _⟩ | ⟨_, hne, _⟩ | ⟨_, _, hst, _⟩
  · exact absurd hmem (by decide)
  · exact absurd hne (by decide)
  · exact hst

/-! ## Order lemmas for the `nlargest` comparison -/

lemma strLtB_trans : ∀ {a b c : Str}, strLtB a b = true → strLtB b c = true →
    strLtB a c = true
  | [], _ :: _, _ :: _, _, _ => rfl
  | a :: as, b :: bs, c :: cs, hab, hbc => by
    simp only [strLtB, Bool.or_eq_true, Bool.and_eq_true, decide_eq_true_eq] at *
    rcases hab with hab | ⟨hab, hab'⟩ <;> rcases hbc with hbc | ⟨hbc, hbc'⟩
    · exact Or.inl (lt_trans hab hbc)
    · exact Or.inl (hbc ▸ hab)
    · exact Or.inl (hab ▸ hbc)
    · exact Or.inr ⟨hab.trans hbc, strLtB_trans hab' hbc'⟩

lemma strLtB_trichotomy : ∀ (a b : Str),
    strLtB a b = true ∨ strLtB b a = true ∨ a = b
  | [], [] => Or.inr (Or.inr rfl)
  | [], _ :: _ => Or.inl rfl
  | _ :: _, [] => Or.inr (Or.inl rfl)
  | a :: as, b :: bs => by
    rcases lt_trichotomy a b with h | h | h
    · exact Or.inl (by simp [strLtB, h])
    · subst h
      rcases strLtB_trichotomy as bs with h' | h' | h'
      · exact Or.inl (by simp [strLtB, h'])
      · exact Or.inr (Or.inl (by simp [strLtB, h']))
      · exact Or.inr (Or.inr (by rw [h']))
    · exact Or.inr (Or.inl (by simp [strLtB, h]))

lemma strLtB_irrefl : ∀ (a : Str), strLtB a a = false
  | [] => rfl
  | _ :: as => by simp [strLtB, strLtB_irrefl as]

lemma strLtB_asymm {a b : Str} (h : strLtB a b = true) : strLtB b a = false := by
  cases hb : strLtB b a
  · rfl
  · have h2 := strLtB_trans h hb
    rw [strLtB_irrefl] at h2
    exact absurd h2 (by simp)

/-- `scoredGe` is total. -/
lemma scoredGe_total (p q : (Nat × Nat) × Str) :
    scoredGe p q = true ∨ scoredGe q p = true := by
  unfold scoredGe
  rcases lt_trichotomy (rnum q.1 * rden p.1) (rnum p.1 * rden q.1) with h | h | h
  · left; simp [h]
  · rcases strLtB_trichotomy p.2 q.2 with h' | h' | h'
    · right; simp [h, h']
    · left; simp [h, h']
    · left; simp [h, h']
  · right; simp [h]

lemma rden_pos (p : Nat × Nat) : 1 ≤ rden p := by
  unfold rden
  split <;> omega

/-- `scoredGe` is transitive (fraction comparison with positive denominators,
then the string tie-break). -/
lemma scoredGe_trans {p q r : (Nat × Nat) × Str}
    (hpq : scoredGe p q = true) (hqr : scoredGe q r = true) :
    scoredGe p r = true := by
  unfold scoredGe at *
  simp only [Bool.or_eq_true, Bool.and_eq_true, decide_eq_true_eq] at *
  have dp := rden_pos p.1
  have dq := rden_pos q.1
  have dr := rden_pos r.1
  rcases hpq with hpq | ⟨hpq, hpq'⟩ <;> rcases hqr with hqr | ⟨hqr, hqr'⟩
  · left
    have h1 : rnum r.1 * rden p.1 * rden q.1 < rnum p.1 * rden r.1 * rden q.1 := by
      calc rnum r.1 * rden p.1 * rden q.1
          = (rnum r.1 * rden q.1) * rden p.1 := by ring
        _ < (rnum q.1 * rden r.1) * rden p.1 := by
              exact mul_lt_mul_of_pos_right hqr (by omega)
        _ = (rnum q.1 * rden p.1) * rden r.1 := by ring
        _ < (rnum p.1 * rden q.1) * rden r.1 := by
              exact mul_lt_mul_of_pos_right hpq (by omega)
        _ = rnum p.1 * rden r.1 * rden q.1 := by ring
    exact lt_of_mul_lt_mul_right h1 (Nat.zero_le _)
  · left
    have h1 : rnum r.1 * rden p.1 * rden q.1 < rnum p.1 * rden r.1 * rden q.1 := by
      calc rnum r.1 * rden p.1 * rden q.1
          = (rnum r.1 * rden q.1) * rden p.1 := by ring
        _ = (rnum q.1 * rden r.1) * rden p.1 := by rw [hqr]
        _ = (rnum q.1 * rden p.1) * rden r.1 := by ring
        _ < (rnum p.1 * rden q.1) * rden r.1 := by
              exact mul_lt_mul_of_pos_right hpq (by omega)
        _ = rnum p.1 * rden r.1 * rden q.1 := by ring
    exact lt_of_mul_lt_mul_right h1 (Nat.zero_le _)
  · left
    have h1 : rnum r.1 * rden p.1 * rden q.1 < rnum p.1 * rden r.1 * rden q.1 := by
      calc rnum r.1 * rden p.1 * rden q.1
          = (rnum r.1 * rden q.1) * rden p.1 := by ring
        _ < (rnum q.1 * rden r.1) * rden p.1 := by
              exact mul_lt_mul_of_pos_right hqr (by omega)
        _ = (rnum q.1 * rden p.1) * rden r.1 := by ring
        _ = (rnum p.1 * rden q.1) * rden r.1 := by rw [hpq]
        _ = rnum p.1 * rden r.1 * rden q.1 := by ring
    exact lt_of_mul_lt_mul_right h1 (Nat.zero_le _)
  · right
    constructor
    · have h1 : rnum r.1 * rden p.1 * rden q.1 = rnum p.1 * rden r.1 * rden q.1 := by
        calc rnum r.1 * rden p.1 * rden q.1
            = (rnum r.1 * rden q.1) * rden p.1 := by ring
          _ = (rnum q.1 * rden r.1) * rden p.1 := by rw [hqr]
          _ = (rnum q.1 * rden p.1) * rden r.1 := by ring
          _ = (rnum p.1 * rden q.1) * rden r.1 := by rw [hpq]
          _ = rnum p.1 * rden r.1 * rden q.1 := by ring
      exact Nat.eq_of_mul_eq_mul_right (by omega) h1
    · rcases hpq' with hpq' | hpq' <;> rcases hqr' with hqr' | hqr'
      · exact Or.inl (strLtB_trans hqr' hpq')
      · exact Or.inl (hqr' ▸ hpq')
      · exact Or.inl (hpq' ▸ hqr')
      · exact Or.inr (hqr' ▸ hpq')

/-! ## The stable sort -/

lemma mem_sInsert (le : α → α → Bool) (x a : α) :
    ∀ l : List α, a ∈ sInsert le x l ↔ a = x ∨ a ∈ l
  | [] => by simp [sInsert]
  | y :: ys => by
    unfold sInsert
    split
    · simp only [List.mem_cons, mem_sInsert le x a ys]
      tauto
    · simp only [List.mem_cons]

lemma mem_stableSortBy (le : α → α → Bool) (a : α) (l : List α) :
    a ∈ stableSortBy le l ↔ a ∈ l := by
  suffices h : ∀ (l acc : List α),
      (a ∈ l.foldl (fun acc x => sInsert le x acc) acc ↔ a ∈ l ∨ a ∈ acc) by
    unfold stableSortBy
    rw [h l []]
    simp
  intro l
  induction l with
  | nil => simp
  | cons x xs ih =>
    intro acc
    simp only [List.foldl_cons, ih, mem_sInsert]
    constructor
    · rintro (h | h | h) <;> simp [h]
    · rintro (h | h)
      · rcases List.mem_cons.mp h with h | h
        · exact Or.inr (Or.inl h)
        · exact Or.inl h
      · exact Or.inr (Or.inr h)

lemma pairwise_sInsert (le : α → α → Bool)
    (htot : ∀ p q : α, le p q = true ∨ le q p = true)
    (htrans : ∀ {p q r : α}, le p q = true → le q r = true → le p r = true)
    (x : α) :
    ∀ l : List α, l.Pairwise (fun p q => le p q = true) →
      (sInsert le x l).Pairwise (fun p q => le p q = true)
  | [], _ => by simp [sInsert]
  | y :: ys, hp => by
    unfold sInsert
    obtain ⟨hy, hys⟩ := List.pairwise_cons.mp hp
    split
    · refine List.pairwise_cons.mpr ⟨?_, pairwise_sInsert le htot htrans x ys hys⟩
      intro z hz
      rcases (mem_sInsert le x z ys).mp hz with rfl | hz
      · assumption
      · exact hy z hz
    · refine List.pairwise_cons.mpr ⟨?_, hp⟩
      intro z hz
      have hxy : le x y = true := by
        rcases htot x y with h | h
        · exact h
        · simp_all
      rcases List.mem_cons.mp hz with rfl | hz
      · exact hxy
      · exact htrans hxy (hy z hz)

lemma pairwise_stableSortBy (le : α → α → Bool)
    (htot : ∀ p q : α, le p q = true ∨ le q p = true)
    (htrans : ∀ {p q r : α}, le p q = true → le q r = true → le p r = true)
    (l : List α) :
    (stableSortBy le l).Pairwise (fun p q => le p q = true) := by
  suffices h : ∀ (l acc : List α), acc.Pairwise (fun p q => le p q = true) →
      (l.foldl (fun acc x => sInsert le x acc) acc).Pairwise (fun p q => le p q = true) by
    exact h l [] (by simp)
  intro l
  induction l with
  | nil => intro acc h; simpa using h
  | cons x xs ih =>
    intro acc hacc
    exact ih _ (pairwise_sInsert le htot htrans x acc hacc)

/-! ## `find_longest_match` invariants -/

/-- What holds of the `j2len` row after the outer loop has processed
a-position `i`: a nonzero entry at `j` is the length of a common run ending
at `(i, j)`, confined to `[alo, i]` × `[blo, bhi)`. -/
def RowOk (a b : Str) (alo blo bhi i : Nat) (f : Nat → Nat) : Prop :=
  ∀ j, f j ≠ 0 →
    blo ≤ j ∧ j < bhi ∧ alo ≤ i ∧ f j ≤ i + 1 - alo ∧ f j ≤ j + 1 - blo ∧
    ∀ t, t < f j → a.getD (i - t) ' ' = b.getD (j - t) ' '

/-- The same row read one step later, as the `old` row when processing
a-position `i` (runs end at `i - 1`). -/
def PrevRow (a b : Str) (alo blo bhi i : Nat) (f : Nat → Nat) : Prop :=
  ∀ j, f j ≠ 0 →
    alo + 1 ≤ i ∧ blo ≤ j ∧ j < bhi ∧ f j ≤ i - alo ∧ f j ≤ j + 1 - blo ∧
    ∀ t, t < f j → a.getD (i - 1 - t) ' ' = b.getD (j - t) ' '

/-- The best block seen so far: either still the initial `(alo, blo, 0)` or a
genuine common block inside `[alo, hi)` × `[blo, bhi)`. -/
def BestInv (a b : Str) (alo blo hi bhi : Nat) (best : FLMBest) : Prop :=
  best = ⟨alo, blo, 0⟩ ∨
  (1 ≤ best.bestsize ∧ alo ≤ best.besti ∧ best.besti + best.bestsize ≤ hi ∧
   blo ≤ best.bestj ∧ best.bestj + best.bestsize ≤ bhi ∧
   ∀ t, t < best.bestsize →
     a.getD (best.besti + t) ' ' = b.getD (best.bestj + t) ' ')

lemma RowOk_to_PrevRow {a b : Str} {alo blo bhi i : Nat} {f : Nat → Nat}
    (h : RowOk a b alo blo bhi i f) : PrevRow a b alo blo bhi (i + 1) f := by
  intro j hj
  obtain ⟨h1, h2, h3, h4, h5, h6⟩ := h j hj
  exact ⟨by omega, h1, h2, by omega, h5, by simpa using h6⟩

lemma mem_b2j {b : Str} {c : Char} {j : Nat} (h : j ∈ b2j b c) :
    b.getD j ' ' = c := by
  have := List.mem_filter.mp h
  simpa using this.2

/-- One pass of the inner loop preserves the row and best invariants. -/
lemma flmInner_ok (a b : Str) (alo blo bhi i : Nat) (old : Nat → Nat)
    (hold : PrevRow a b alo blo bhi i old) (halo : alo ≤ i) :
    ∀ (js : List Nat) (nw : Nat → Nat) (best : FLMBest),
    (∀ j ∈ js, blo ≤ j ∧ j < bhi ∧ b.getD j ' ' = a.getD i ' ') →
    RowOk a b alo blo bhi i nw →
    BestInv a b alo blo (i + 1) bhi best →
    RowOk a b alo blo bhi i (flmInner old i js nw best).1 ∧
    BestInv a b alo blo (i + 1) bhi (flmInner old i js nw best).2
  | [], nw, best, _, hnw, hbest => ⟨hnw, hbest⟩
  | j :: js, nw, best, hjs, hnw, hbest => by
    obtain ⟨hjb, hjh, hjc⟩ := hjs j (List.mem_cons_self j js)
    -- the computed run length k and its properties
    have hk1 : ((if j = 0 then 0 else old (j - 1)) + 1) ≤ i + 1 - alo := by
      split
      · omega
      · rename_i hj0
        by_cases hz : old (j - 1) = 0
        · omega
        · obtain ⟨p1, _, _, p4, _, _⟩ := hold (j - 1) hz
          omega
    have hk2 : ((if j = 0 then 0 else old (j - 1)) + 1) ≤ j + 1 - blo := by
      split
      · omega
      · rename_i hj0
        by_cases hz : old (j - 1) = 0
        · omega
        · obtain ⟨_, p2, _, _, p5, _⟩ := hold (j - 1) hz
          omega
    have hk3 : ∀ t, t < (if j = 0 then 0 else old (j - 1)) + 1 →
        a.getD (i - t) ' ' = b.getD (j - t) ' ' := by
      intro t ht
      rcases Nat.eq_zero_or_pos t with rfl | htpos
      · simpa using hjc.symm
      · have hj0 : ¬ j = 0 := by
          intro hj0
          rw [if_pos hj0] at ht
          omega
        rw [if_neg hj0] at ht
        have hz : old (j - 1) ≠ 0 := by omega
        obtain ⟨p1, _, _, _, _, p6⟩ := hold (j - 1) hz
        have := p6 (t - 1) (by omega)
        have e1 : i - 1 - (t - 1) = i - t := by omega
        have e2 : j - 1 - (t - 1) = j - t := by omega
        rw [e1, e2] at this
        exact this
    refine flmInner_ok a b alo blo bhi i old hold halo js _ _
      (fun x hx => hjs x (List.mem_cons_of_mem j hx)) ?_ ?_
    · -- updated row
      intro x hx
      by_cases hxj : x = j
      · subst hxj
        simp only [if_pos rfl] at hx ⊢
        exact ⟨hjb, hjh, halo, hk1, hk2, hk3⟩
      · simp only [if_neg hxj] at hx ⊢
        exact hnw x hx
    · -- updated best
      generalize hkdef : (if j = 0 then 0 else old (j - 1)) + 1 = k at hk1 hk2 hk3 ⊢
      have hkpos : 1 ≤ k := by omega
      split
      · rename_i hlt
        right
        refine ⟨by simp only; omega, by simp only; omega, by simp only; omega,
          by simp only; omega, by simp only; omega, ?_⟩
        intro t ht
        simp only at ht ⊢
        have e1 : i + 1 - k + t = i - (k - 1 - t) := by omega
        have e2 : j + 1 - k + t = j - (k - 1 - t) := by omega
        rw [e1, e2]
        exact hk3 _ (by omega)
      · exact hbest

/-- The outer loop carries `BestInv` across the processed range. -/
lemma flmOuter_ok (a b : Str) (alo blo bhi : Nat) :
    ∀ (cnt i0 : Nat) (old : Nat → Nat) (best : FLMBest),
    PrevRow a b alo blo bhi i0 old →
    alo ≤ i0 →
    BestInv a b alo blo i0 bhi best →
    BestInv a b alo blo (i0 + cnt) bhi
      (flmOuter a b blo bhi (List.range' i0 cnt) old best)
  | 0, i0, old, best, _, _, hbest => by
    simpa [flmOuter] using hbest
  | cnt + 1, i0, old, best, hold, halo, hbest => by
    rw [List.range'_succ]
    unfold flmOuter
    have hjs : ∀ j ∈ (b2j b (a.getD i0 ' ')).filter
        (fun j => decide (blo ≤ j) && decide (j < bhi)),
        blo ≤ j ∧ j < bhi ∧ b.getD j ' ' = a.getD i0 ' ' := by
      intro j hj
      obtain ⟨hj1, hj2⟩ := List.mem_filter.mp hj
      simp only [Bool.and_eq_true, decide_eq_true_eq] at hj2
      exact ⟨hj2.1, hj2.2, mem_b2j hj1⟩
    have hbest' : BestInv a b alo blo (i0 + 1) bhi best := by
      rcases hbest with h | h
      · exact Or.inl h
      · exact Or.inr ⟨h.1, h.2.1, by omega, h.2.2.2.1, h.2.2.2.2.1, h.2.2.2.2.2⟩
    have hrow0 : RowOk a b alo blo bhi i0 (fun _ => 0) := by
      intro j hj
      simp at hj
    obtain ⟨hrow, hbest2⟩ := flmInner_ok a b alo blo bhi i0 old hold halo
      ((b2j b (a.getD i0 ' ')).filter (fun j => decide (blo ≤ j) && decide (j < bhi)))
      (fun _ => 0) best hjs hrow0 hbest'
    have hrec := flmOuter_ok a b alo blo bhi cnt (i0 + 1)
      (flmInner old i0 _ (fun _ => 0) best).1
      (flmInner old i0 _ (fun _ => 0) best).2
      (RowOk_to_PrevRow hrow) (by omega) hbest2
    have : i0 + 1 + cnt = i0 + (cnt + 1) := by omega
    rw [this] at hrec
    exact hrec

/-- `find_longest_match` returns a genuine common block within the ranges
(or size 0 at `(alo, blo)`). -/
lemma findLongestMatch_ok (a b : Str) (alo ahi blo bhi : Nat) (h : alo ≤ ahi) :
    BestInv a b alo blo ahi bhi (findLongestMatch a b alo ahi blo bhi) := by
  have h0 : PrevRow a b alo blo bhi alo (fun _ => 0) := by
    intro j hj
    simp at hj
  have hb0 : BestInv a b alo blo alo bhi ⟨alo, blo, 0⟩ := Or.inl rfl
  have := flmOuter_ok a b alo blo bhi (ahi - alo) alo (fun _ => 0) ⟨alo, blo, 0⟩
    h0 (Nat.le_refl alo) hb0
  have e : alo + (ahi - alo) = ahi := by omega
  rw [e] at this
  exact this

/-- The total matched size is at most the length of either range. -/
lemma matchTotal_le (a b : Str) :
    ∀ (fuel alo ahi blo bhi : Nat), alo ≤ ahi → blo ≤ bhi →
    matchTotal a b fuel alo ahi blo bhi ≤ min (ahi - alo) (bhi - blo)
  | 0, alo, ahi, blo, bhi, _, _ => by simp [matchTotal]
  | fuel + 1, alo, ahi, blo, bhi, ha, hb => by
    unfold matchTotal
    dsimp only
    split
    · omega
    · rename_i hk
      rcases findLongestMatch_ok a b alo ahi blo bhi ha with heq | hinv
      · rw [heq] at hk
        simp at hk
      · obtain ⟨h1, h2, h3, h4, h5, _⟩ := hinv
        have hl := matchTotal_le a b fuel alo
          (findLongestMatch a b alo ahi blo bhi).besti blo
          (findLongestMatch a b alo ahi blo bhi).bestj (by omega) (by omega)
        have hr := matchTotal_le a b fuel
          ((findLongestMatch a b alo ahi blo bhi).besti +
            (findLongestMatch a b alo ahi blo bhi).bestsize) ahi
          ((findLongestMatch a b alo ahi blo bhi).bestj +
            (findLongestMatch a b alo ahi blo bhi).bestsize) bhi
          (by omega) (by omega)
        omega

/-- If the total matched size saturates both range lengths, the ranges agree
pointwise (and so have equal length). -/
lemma matchTotal_eq_full (a b : Str) :
    ∀ (fuel alo ahi blo bhi : Nat), alo ≤ ahi → blo ≤ bhi →
    matchTotal a b fuel alo ahi blo bhi = ahi - alo →
    matchTotal a b fuel alo ahi blo bhi = bhi - blo →
    ∀ t, t < ahi - alo → a.getD (alo + t) ' ' = b.getD (blo + t) ' '
  | 0, alo, ahi, blo, bhi, _, _, hea, _, t, ht => by
    simp [matchTotal] at hea
    omega
  | fuel + 1, alo, ahi, blo, bhi, ha, hb, hea, heb, t, ht => by
    rw [show matchTotal a b (fuel + 1) alo ahi blo bhi =
      (if (findLongestMatch a b alo ahi blo bhi).bestsize = 0 then 0
       else
        matchTotal a b fuel alo (findLongestMatch a b alo ahi blo bhi).besti
          blo (findLongestMatch a b alo ahi blo bhi).bestj +
        (findLongestMatch a b alo ahi blo bhi).bestsize +
        matchTotal a b fuel
          ((findLongestMatch a b alo ahi blo bhi).besti +
            (findLongestMatch a b alo ahi blo bhi).bestsize) ahi
          ((findLongestMatch a b alo ahi blo bhi).bestj +
            (findLongestMatch a b alo ahi blo bhi).bestsize) bhi)
      from rfl] at hea heb
    by_cases hk : (findLongestMatch a b alo ahi blo bhi).bestsize = 0
    · rw [if_pos hk] at hea
      omega
    · rw [if_neg hk] at hea heb
      rcases findLongestMatch_ok a b alo ahi blo bhi ha with heq | hinv
      · rw [heq] at hk
        simp at hk
      · obtain ⟨h1, h2, h3, h4, h5, h6⟩ := hinv
        have hl := matchTotal_le a b fuel alo
          (findLongestMatch a b alo ahi blo bhi).besti blo
          (findLongestMatch a b alo ahi blo bhi).bestj (by omega) (by omega)
        have hr := matchTotal_le a b fuel
          ((findLongestMatch a b alo ahi blo bhi).besti +
            (findLongestMatch a b alo ahi blo bhi).bestsize) ahi
          ((findLongestMatch a b alo ahi blo bhi).bestj +
            (findLongestMatch a b alo ahi blo bhi).bestsize) bhi
          (by omega) (by omega)
        -- all four slack inequalities are forced to equalities
        have hlea : matchTotal a b fuel alo
            (findLongestMatch a b alo ahi blo bhi).besti blo
            (findLongestMatch a b alo ahi blo bhi).bestj =
            (findLongestMatch a b alo ahi blo bhi).besti - alo := by omega
        have hleb : matchTotal a b fuel alo
            (findLongestMatch a b alo ahi blo bhi).besti blo
            (findLongestMatch a b alo ahi blo bhi).bestj =
            (findLongestMatch a b alo ahi blo bhi).bestj - blo := by omega
        have hrea : matchTotal a b fuel
            ((findLongestMatch a b alo ahi blo bhi).besti +
              (findLongestMatch a b alo ahi blo bhi).bestsize) ahi
            ((findLongestMatch a b alo ahi blo bhi).bestj +
              (findLongestMatch a b alo ahi blo bhi).bestsize) bhi =
            ahi - ((findLongestMatch a b alo ahi blo bhi).besti +
              (findLongestMatch a b alo ahi blo bhi).bestsize) := by omega
        have hreb : matchTotal a b fuel
            ((findLongestMatch a b alo ahi blo bhi).besti +
              (findLongestMatch a b alo ahi blo bhi).bestsize) ahi
            ((findLongestMatch a b alo ahi blo bhi).bestj +
              (findLongestMatch a b alo ahi blo bhi).bestsize) bhi =
            bhi - ((findLongestMatch a b alo ahi blo bhi).bestj +
              (findLongestMatch a b alo ahi blo bhi).bestsize) := by omega
        have ihl := matchTotal_eq_full a b fuel alo
          (findLongestMatch a b alo ahi blo bhi).besti blo
          (findLongestMatch a b alo ahi blo bhi).bestj (by omega) (by omega)
          hlea hleb
        have ihr := matchTotal_eq_full a b fuel
          ((findLongestMatch a b alo ahi blo bhi).besti +
            (findLongestMatch a b alo ahi blo bhi).bestsize) ahi
          ((findLongestMatch a b alo ahi blo bhi).bestj +
            (findLongestMatch a b alo ahi blo bhi).bestsize) bhi
          (by omega) (by omega) hrea hreb
        by_cases hc1 : t < (findLongestMatch a b alo ahi blo bhi).besti - alo
        · exact ihl t hc1
        · by_cases hc2 : t < (findLongestMatch a b alo ahi blo bhi).besti - alo +
              (findLongestMatch a b alo ahi blo bhi).bestsize
          · have e1 : alo + t = (findLongestMatch a b alo ahi blo bhi).besti +
                (t - ((findLongestMatch a b alo ahi blo bhi).besti - alo)) := by
              omega
            have e2 : blo + t = (findLongestMatch a b alo ahi blo bhi).bestj +
                (t - ((findLongestMatch a b alo ahi blo bhi).besti - alo)) := by
              omega
            rw [e1, e2]
            exact h6 _ (by omega)
          · have e1 : alo + t = ((findLongestMatch a b alo ahi blo bhi).besti +
                (findLongestMatch a b alo ahi blo bhi).bestsize) +
                (t - ((findLongestMatch a b alo ahi blo bhi).besti - alo) -
                  (findLongestMatch a b alo ahi blo bhi).bestsize) := by omega
            have e2 : blo + t = ((findLongestMatch a b alo ahi blo bhi).bestj +
                (findLongestMatch a b alo ahi blo bhi).bestsize) +
                (t - ((findLongestMatch a b alo ahi blo bhi).besti - alo) -
                  (findLongestMatch a b alo ahi blo bhi).bestsize) := by omega
            rw [e1, e2]
            exact ihr _ (by omega)

/-! ## Completeness on the diagonal: `ratio(x, x) = 1` -/

lemma flmInner_untouched (old : Nat → Nat) (i x : Nat) :
    ∀ (js : List Nat) (nw : Nat → Nat) (best : FLMBest), x ∉ js →
    (flmInner old i js nw best).1 x = nw x
  | [], nw, best, _ => rfl
  | j :: js, nw, best, hx => by
    unfold flmInner
    rw [flmInner_untouched old i x js _ _ (fun h => hx (List.mem_cons_of_mem j h))]
    have hxj : ¬ x = j := fun h => hx (by rw [h]; exact List.mem_cons_self j js)
    simp [hxj]

lemma flmInner_bestsize_mono (old : Nat → Nat) (i : Nat) :
    ∀ (js : List Nat) (nw : Nat → Nat) (best : FLMBest),
    best.bestsize ≤ (flmInner old i js nw best).2.bestsize
  | [], nw, best => Nat.le_refl _
  | j :: js, nw, best => by
    unfold flmInner
    refine Nat.le_trans ?_ (flmInner_bestsize_mono old i js _ _)
    split <;> split <;>
      first
        | exact Nat.le_refl _
        | (rename_i h; exact Nat.le_of_lt h)

lemma flmInner_writes (old : Nat → Nat) (i : Nat) :
    ∀ (js : List Nat) (nw : Nat → Nat) (best : FLMBest), js.Nodup →
    ∀ j ∈ js,
      (flmInner old i js nw best).1 j = (if j = 0 then 0 else old (j - 1)) + 1 ∧
      (if j = 0 then 0 else old (j - 1)) + 1 ≤ (flmInner old i js nw best).2.bestsize
  | [], _, _, _, j, hj => absurd hj (List.not_mem_nil j)
  | j0 :: js, nw, best, hnd, j, hj => by
    obtain ⟨hnd1, hnd2⟩ := List.nodup_cons.mp hnd
    rcases List.mem_cons.mp hj with rfl | hj'
    · unfold flmInner
      constructor
      · rw [flmInner_untouched old i j js _ _ hnd1]
        simp
      · refine Nat.le_trans ?_ (flmInner_bestsize_mono old i js _ _)
        split <;> split <;>
          first
            | exact Nat.le_refl _
            | (rename_i h; omega)
    · exact flmInner_writes old i js _ _ hnd2 j hj'

lemma b2j_self_mem (a : Str) (i : Nat) (hi : i < a.length) :
    i ∈ (b2j a (a.getD i ' ')).filter
      (fun j => decide (0 ≤ j) && decide (j < a.length)) := by
  rw [List.mem_filter]
  constructor
  · unfold b2j
    rw [List.mem_filter]
    simpa using hi
  · simpa using hi

lemma b2j_filter_nodup (b : Str) (c : Char) (blo bhi : Nat) :
    ((b2j b c).filter (fun j => decide (blo ≤ j) && decide (j < bhi))).Nodup :=
  ((List.nodup_range _).filter _).filter _

/-- On the diagonal (`b = a`, full ranges), the outer loop drives the best
size up to the full length. -/
lemma flmOuter_diag (a : Str) :
    ∀ (cnt i0 : Nat) (old : Nat → Nat) (best : FLMBest),
    i0 + cnt = a.length →
    (1 ≤ i0 → old (i0 - 1) = i0) →
    i0 ≤ best.bestsize →
    a.length ≤
      (flmOuter a a 0 a.length (List.range' i0 cnt) old best).bestsize
  | 0, i0, old, best, hlen, _, hbest => by
    have he : flmOuter a a 0 a.length (List.range' i0 0) old best = best := rfl
    rw [he]
    omega
  | cnt + 1, i0, old, best, hlen, hold, hbest => by
    rw [List.range'_succ]
    unfold flmOuter
    set js := (b2j a (a.getD i0 ' ')).filter
      (fun j => decide (0 ≤ j) && decide (j < a.length)) with hjs
    have hmem : i0 ∈ js := b2j_self_mem a i0 (by omega)
    have hnd : js.Nodup := b2j_filter_nodup a _ 0 a.length
    obtain ⟨hw, hbs⟩ := flmInner_writes old i0 js (fun _ => 0) best hnd i0 hmem
    have hk : (if i0 = 0 then 0 else old (i0 - 1)) + 1 = i0 + 1 := by
      split
      · omega
      · rw [hold (by omega)]
    rw [hk] at hw hbs
    exact flmOuter_diag a cnt (i0 + 1) _ _ (by omega)
      (fun _ => by simpa using hw) hbs

lemma findLongestMatch_self (a : Str) :
    findLongestMatch a a 0 a.length 0 a.length = ⟨0, 0, a.length⟩ := by
  have hge : a.length ≤ (findLongestMatch a a 0 a.length 0 a.length).bestsize := by
    unfold findLongestMatch
    exact flmOuter_diag a (a.length - 0) 0 (fun _ => 0) ⟨0, 0, 0⟩ (by omega)
      (fun h => absurd h (by omega)) (by omega)
  rcases hflm : findLongestMatch a a 0 a.length 0 a.length with ⟨bi, bj, bs⟩
  rw [hflm] at hge
  simp only at hge
  rcases findLongestMatch_ok a a 0 a.length 0 a.length (Nat.zero_le _) with heq | hinv
  · rw [hflm] at heq
    obtain ⟨e1, e2, e3⟩ := FLMBest.mk.injEq .. ▸ heq
    simp only [FLMBest.mk.injEq]
    omega
  · rw [hflm] at hinv
    obtain ⟨h1, h2, h3, h4, h5, _⟩ := hinv
    simp only at h1 h2 h3 h4 h5
    simp only [FLMBest.mk.injEq]
    omega

lemma matchTotal_self (a : Str) (fuel : Nat) (hf : 1 ≤ fuel) :
    matchTotal a a fuel 0 a.length 0 a.length = a.length := by
  obtain ⟨fuel, rfl⟩ : ∃ f, fuel = f + 1 := ⟨fuel - 1, by omega⟩
  rw [show matchTotal a a (fuel + 1) 0 a.length 0 a.length =
    (if (findLongestMatch a a 0 a.length 0 a.length).bestsize = 0 then 0
     else
      matchTotal a a fuel 0 (findLongestMatch a a 0 a.length 0 a.length).besti
        0 (findLongestMatch a a 0 a.length 0 a.length).bestj +
      (findLongestMatch a a 0 a.length 0 a.length).bestsize +
      matchTotal a a fuel
        ((findLongestMatch a a 0 a.length 0 a.length).besti +
          (findLongestMatch a a 0 a.length 0 a.length).bestsize) a.length
        ((findLongestMatch a a 0 a.length 0 a.length).bestj +
          (findLongestMatch a a 0 a.length 0 a.length).bestsize) a.length)
    from rfl]
  rw [findLongestMatch_self a]
  simp only
  by_cases hz : a.length = 0
  · simp [hz]
  · rw [if_neg hz]
    simp only [Nat.zero_add]
    have hl := matchTotal_le a a fuel 0 0 0 0 (Nat.le_refl _) (Nat.le_refl _)
    have hr := matchTotal_le a a fuel a.length a.length a.length a.length
      (Nat.le_refl _) (Nat.le_refl _)
    simp only [Nat.sub_self, Nat.min_self, Nat.le_zero] at hl hr
    omega

lemma ratioPair_self (x : Str) :
    ratioPair x x = (2 * x.length, x.length + x.length) := by
  unfold ratioPair
  rw [matchTotal_self x _ (by omega)]

lemma ratioPair_num_le (x w : Str) : (ratioPair x w).1 ≤ (ratioPair x w).2 := by
  unfold ratioPair
  simp only
  have := matchTotal_le x w (x.length + w.length + 1) 0 x.length 0 w.length
    (Nat.zero_le _) (Nat.zero_le _)
  omega

lemma ratioPair_snd_zero (x w : Str) (h : (ratioPair x w).2 = 0) : x = w := by
  unfold ratioPair at h
  simp only at h
  have hx : x = [] := List.eq_nil_of_length_eq_zero (by omega)
  have hw : w = [] := List.eq_nil_of_length_eq_zero (by omega)
  rw [hx, hw]

lemma ratioPair_eq_imp (x w : Str) (h : (ratioPair x w).1 = (ratioPair x w).2) :
    x = w := by
  by_cases hz : (ratioPair x w).2 = 0
  · exact ratioPair_snd_zero x w hz
  · have hM := matchTotal_le x w (x.length + w.length + 1) 0 x.length 0 w.length
      (Nat.zero_le _) (Nat.zero_le _)
    unfold ratioPair at h hz
    simp only at h hz
    have hlen : x.length = w.length := by omega
    have hMa : matchTotal x w (x.length + w.length + 1) 0 x.length 0 w.length =
        x.length - 0 := by omega
    have hMb : matchTotal x w (x.length + w.length + 1) 0 x.length 0 w.length =
        w.length - 0 := by omega
    have hpt := matchTotal_eq_full x w (x.length + w.length + 1) 0 x.length 0
      w.length (Nat.zero_le _) (Nat.zero_le _) hMa hMb
    apply List.ext_getElem hlen
    intro i h1 h2
    have := hpt i (by omega)
    simpa [List.getD_eq_getElem?_getD, List.getElem?_eq_getElem, h1, h2] using this

/-- `rnum/rden` read `ratio ≤ 1` off any `ratioPair`. -/
lemma rnum_le_rden (x w : Str) :
    rnum (ratioPair x w) ≤ rden (ratioPair x w) := by
  unfold rnum rden
  split
  · exact Nat.le_refl _
  · exact ratioPair_num_le x w

lemma rnum_eq_rden_imp (x w : Str)
    (h : rnum (ratioPair x w) = rden (ratioPair x w)) : x = w := by
  unfold rnum rden at h
  by_cases hz : (ratioPair x w).2 = 0
  · exact ratioPair_snd_zero x w hz
  · rw [if_neg hz, if_neg hz] at h
    exact ratioPair_eq_imp x w h

lemma rnum_self_eq_rden_self (w : Str) :
    rnum (ratioPair w w) = rden (ratioPair w w) := by
  unfold rnum rden
  rw [ratioPair_self]
  simp only
  by_cases hz : w.length + w.length = 0
  · simp [hz]
  · rw [if_neg hz, if_neg hz]
    omega

lemma ratioGeCut_self (w : Str) : ratioGeCut 2 5 (ratioPair w w) = true := by
  unfold ratioGeCut
  have h := rnum_self_eq_rden_self w
  have h2 := rden_pos (ratioPair w w)
  simp only [decide_eq_true_eq]
  omega

/-- If a scored list contains the exact-match pair and every entry is scored
against `word`, the descending stable sort puts an entry equal to `word`
first: nothing scores above ratio 1, and ratio 1 forces equality. -/
lemma head_of_sorted (result : List ((Nat × Nat) × Str)) (word : Str)
    (hmem : (ratioPair word word, word) ∈ result)
    (hall : ∀ p ∈ result, p.1 = ratioPair p.2 word) :
    ∃ h t, stableSortBy scoredGe result = h :: t ∧ h.2 = word := by
  cases hs : stableSortBy scoredGe result with
  | nil =>
    have := (mem_stableSortBy scoredGe _ result).mpr hmem
    rw [hs] at this
    simp at this
  | cons h t =>
    refine ⟨h, t, rfl, ?_⟩
    have hpw := pairwise_stableSortBy scoredGe scoredGe_total
      (fun hpq hqr => scoredGe_trans hpq hqr) result
    rw [hs] at hpw
    obtain ⟨hhead, _⟩ := List.pairwise_cons.mp hpw
    have hhmem : h ∈ result :=
      (mem_stableSortBy scoredGe h result).mp (hs ▸ List.mem_cons_self h t)
    have hh1 : h.1 = ratioPair h.2 word := hall h hhmem
    have hwmem : (ratioPair word word, word) ∈ h :: t :=
      hs ▸ (mem_stableSortBy scoredGe _ result).mpr hmem
    rcases List.mem_cons.mp hwmem with heq | hin
    · exact (congrArg Prod.snd heq).symm
    · have hle := hhead _ hin
      unfold scoredGe at hle
      simp only [Bool.or_eq_true, Bool.and_eq_true, decide_eq_true_eq] at hle
      have hD : rnum (ratioPair word word) = rden (ratioPair word word) :=
        rnum_self_eq_rden_self word
      have hDpos : 1 ≤ rden (ratioPair word word) := rden_pos _
      have hble : rnum h.1 ≤ rden h.1 := by
        rw [hh1]
        exact rnum_le_rden h.2 word
      rcases hle with hlt | ⟨heq2, _⟩
      · exfalso
        rw [hD] at hlt
        have hlt2 : rden h.1 * rden (ratioPair word word) <
            rnum h.1 * rden (ratioPair word word) := by
          calc rden h.1 * rden (ratioPair word word)
              = rden (ratioPair word word) * rden h.1 := by ring
            _ < rnum h.1 * rden (ratioPair word word) := hlt
        have := lt_of_mul_lt_mul_right hlt2 (Nat.zero_le _)
        omega
      · rw [hD] at heq2
        have heq3 : rden h.1 * rden (ratioPair word word) =
            rnum h.1 * rden (ratioPair word word) := by
          calc rden h.1 * rden (ratioPair word word)
              = rden (ratioPair word word) * rden h.1 := by ring
            _ = rnum h.1 * rden (ratioPair word word) := heq2
        have h4 := Nat.eq_of_mul_eq_mul_right (by omega) heq3
        have h5 : rnum h.1 = rden h.1 := h4.symm
        rw [hh1] at h5
        exact rnum_eq_rden_imp h.2 word h5

lemma getCloseMatches_head (word : Str) (cl : List Str) (n : Nat)
    (hn : 1 ≤ n) (hw : word ∈ cl) :
    (getCloseMatches word cl n 2 5).head? = some word := by
  unfold getCloseMatches
  dsimp only
  have hmem : (ratioPair word word, word) ∈ cl.filterMap (fun x =>
      if ratioGeCut 2 5 (ratioPair x word) then some (ratioPair x word, x)
      else none) := by
    rw [List.mem_filterMap]
    exact ⟨word, hw, by rw [if_pos (ratioGeCut_self word)]⟩
  have hall : ∀ p ∈ cl.filterMap (fun x =>
      if ratioGeCut 2 5 (ratioPair x word) then some (ratioPair x word, x)
      else none), p.1 = ratioPair p.2 word := by
    intro p hp
    obtain ⟨x, _, hfx⟩ := List.mem_filterMap.mp hp
    split at hfx
    · obtain rfl := Option.some.injEq .. ▸ hfx.symm
      rfl
    · exact absurd hfx (by simp)
  obtain ⟨h, t, hs, hh⟩ := head_of_sorted _ word hmem hall
  rw [hs]
  obtain ⟨m, rfl⟩ : ∃ m, n = m + 1 := ⟨n - 1, by omega⟩
  rw [List.take_succ_cons, List.map_cons, List.head?_cons, hh]

/-- **C4 counterexample.** With input exactly equal to a directory entry, the
fuzzy matcher does *not* short-circuit to a one-element list: similarity
ranking still runs and close neighbours above the cutoff are returned after
the exact entry. -/
theorem fuzzy_exact_match_not_unique_cex :
    (str "abc") ∈ [str "abc", str "abcd"] ∧
    suggest_company_matches [str "abc", str "abcd"] (str "abc") =
      [str "abc", str "abcd"] := by
  decide

/-- **C4 (amended).** For every directory and every input exactly equal to
some entry, the fuzzy matcher returns that entry at rank 1 (first in the
list), though possibly followed by other entries within the similarity
threshold; similarity ranking is not short-circuited (the state-machine
handlers, not the matcher, perform the exact-membership short-circuit). -/
theorem fuzzy_exact_match_rank_one (cl : List Str) (word : Str)
    (hw : word ∈ cl) :
    (suggest_company_matches cl word).head? = some word :=
  getCloseMatches_head word cl 5 (by omega) hw

/-- **C4 (amended) witness**: rank 1 at a concrete directory. -/
theorem fuzzy_exact_match_rank_one_witness :
    (suggest_company_matches [str "abc", str "abcd"] (str "abc")).head? =
      some (str "abc") :=
  fuzzy_exact_match_rank_one [str "abc", str "abcd"] (str "abc") (by decide)
